import Mathlib

/-!
# ModMiner driver (driver-modminer.c): shallow embedding and verified properties

The definitions below follow `src/driver-modminer.c` function by function.

Modelling conventions
* Machine integers are `Nat`/`Int` with explicit reductions: `to_uchar` is the
  conversion to `unsigned char`/`uint8_t`, `to_schar` the conversion to
  `signed char`, and a plain `char` is signed (`char_value`), as it is on the
  x86/x86-64 gcc and mingw targets the driver is built for.
* Every interaction with the serial port is answered by an explicit
  environment argument.  A transaction on a handle that is not open fails
  whatever the environment says (`port_reply`).
* Each function returns, next to its C return value and the updated
  structures, the list of command frames it handed to `write` (`wire`).
* The mutex, the log output and the sleeping are not modelled.
* `dynclock.c`, `miner.c` and `fpgautils.c` are not part of the sources at
  hand: `test_nonce`, the decision of `dclk_updateFreq` and the results of
  `serial_open`, `time`, `gettimeofday` and `open_xilinx_bitstream` are
  parameters.  `test_nonce` and `submit_nonce` are taken as the host
  interface describes them, a predicate and a sink: what they may write into
  the nonce field of a work unit is not modelled.
* Counters of type `int` are unbounded naturals.
-/

namespace ModMiner

/-! ## Constants -/

def MODMINER_MAX_CLOCK : Nat := 230
def MODMINER_DEF_CLOCK : Nat := 200
def MODMINER_MIN_CLOCK : Nat := 2

def FPGAID_ALL : Nat := 4

/-- The bytes of `BISTREAM_USER_ID`, "\2\4$B". -/
def BISTREAM_USER_ID : List Nat := [2, 4, 36, 66]

/-- A CHECK_WORK reply `ff ff ff ff`: no nonce. -/
def NONCE_NONE : Nat := 0xFFFFFFFF

/-- A CHECK_WORK reply `00 ff ff ff` read as a little-endian word. -/
def NONCE_DISABLED : Nat := 0xFFFFFF00

/-! ## Machine integers -/

/-- Conversion of an integer to `unsigned char` / `uint8_t`. -/
def to_uchar (x : Int) : Nat := (x % 256).toNat

/-- Conversion of an integer to `signed char`. -/
def to_schar (x : Int) : Int := (x + 128) % 256 - 128

/-- Value of a plain (signed) `char` holding the byte `b`. -/
def char_value (b : Nat) : Int := to_schar (b : Int)

/-! ## Data model -/

/-- Command frames handed to `write` on the serial port. -/
inductive Frame where
  | GET_USERCODE (fpgaid : Nat)
  | PROGRAM (fpgaid : Nat) (len : Nat)
  | DATA (nbytes : Nat)
  | SET_CLOCK (fpgaid : Nat) (clk : Nat)
  | SEND_WORK (cmd : List Nat)
  | CHECK_WORK (fpgaid : Nat)
  | TEMP1 (fpgaid : Nat)
  deriving DecidableEq, Repr

/-- The value of `modminer->device_fd`: an open handle, `-1`, or the number
of a handle that has been closed (left behind by a failed `modminer_reopen`). -/
inductive Fd where
  | valid
  | minus_one
  | stale
  deriving DecidableEq, Repr

/-- The fields of `struct dclk_data` the driver reads and writes (`uint8_t`). -/
structure dclk_data where
  freqM : Nat
  freqMaxM : Nat
  freqMDefault : Nat
  deriving DecidableEq, Repr

/-- The fields of `struct work` the driver reads and writes. -/
structure work where
  midstate : List Nat
  data : List Nat
  blk_nonce : Int
  deriving DecidableEq, Repr

/-- The per-FPGA record `struct modminer_fpga_state`.  `tv_workstart` is in
microseconds. -/
structure modminer_fpga_state where
  work_running : Bool
  running_work : work
  last_work : work
  tv_workstart : Int
  hashes : Nat
  next_work_cmd : List Nat
  dclk : dclk_data
  freqMaxMaxM : Nat
  bad_share_counter : Nat
  good_share_counter : Nat
  last_cutoff_reduced : Int
  temp : Nat
  pdone : Nat
  deriving DecidableEq, Repr

/-- The fields of `struct cgpu_info` shared by the FPGAs of one board. -/
structure cgpu_info where
  device_fd : Fd
  targettemp : Int
  hw_errors : Nat
  deriving DecidableEq, Repr

/-- Outcome of a write/read transaction: the environment's answer when the
handle is open, a failure otherwise. -/
def port_reply {α : Type} (fd : Fd) (r : Option α) : Option α :=
  if fd = Fd.valid then r else none

/-- The effect of `_bailout(fd, modminer, ...)` on the device record. -/
def _bailout (modminer : cgpu_info) : cgpu_info :=
  { modminer with device_fd := Fd.minus_one }

/-- `modminer_reopen`: `serial_ok` tells whether `serial_open` succeeds.  On
failure `device_fd` keeps its old value, which now names a closed handle. -/
def modminer_reopen (modminer : cgpu_info) (serial_ok : Bool) : Bool × cgpu_info :=
  if serial_ok then (true, { modminer with device_fd := Fd.valid })
  else if modminer.device_fd = Fd.minus_one then (false, modminer)
  else (false, { modminer with device_fd := Fd.stale })

/-! ## Clock changes -/

structure ClockOut where
  rv : Bool
  modminer : cgpu_info
  state : modminer_fpga_state
  wire : List Frame
  deriving DecidableEq, Repr

/-- `modminer_change_clock`.  `set_clock clk` is the device's answer to a
SET_CLOCK of the byte `clk`: `none` for a failed write or read, otherwise the
reply byte. -/
def modminer_change_clock (modminer : cgpu_info) (state : modminer_fpga_state)
    (fpgaid : Nat) (delta : Int) (set_clock : Nat → Option Nat) : ClockOut :=
  let clk := to_uchar ((state.dclk.freqM : Int) * 2 + to_schar delta)
  let wire := [Frame.SET_CLOCK fpgaid clk]
  match port_reply modminer.device_fd (set_clock clk) with
  | none => ⟨false, _bailout modminer, state, wire⟩
  | some b =>
    if b % 256 ≠ 0 then
      ⟨true, modminer, { state with dclk := { state.dclk with freqM := clk / 2 } }, wire⟩
    else
      ⟨false, modminer, state, wire⟩

/-- `modminer_dclk_change_clock`, the callback handed to `dclk_updateFreq`. -/
def modminer_dclk_change_clock (modminer : cgpu_info) (state : modminer_fpga_state)
    (fpgaid : Nat) (multiplier : Int) (set_clock : Nat → Option Nat) : ClockOut :=
  let oldFreq := state.dclk.freqM
  let delta := to_schar ((multiplier - (oldFreq : Int)) * 2)
  modminer_change_clock modminer state fpgaid delta set_clock

/-- `modminer_reduce_clock`. -/
def modminer_reduce_clock (modminer : cgpu_info) (state : modminer_fpga_state)
    (fpgaid : Nat) (set_clock : Nat → Option Nat) : ClockOut :=
  if state.dclk.freqM ≤ MODMINER_MIN_CLOCK / 2 then
    ⟨false, modminer, state, []⟩
  else
    modminer_change_clock modminer state fpgaid (-2) set_clock

/-- `_modminer_get_nonce`: `reply` is the 4-byte answer read as a
little-endian word, `none` for a failed write or a short read. -/
def _modminer_get_nonce (modminer : cgpu_info) (fpgaid : Nat) (reply : Option Nat) :
    Option Nat × List Frame :=
  (port_reply modminer.device_fd reply, [Frame.CHECK_WORK fpgaid])

/-! ## Thermal supervisor -/

/-- What the environment answers during one `modminer_get_temperature`. -/
structure TempEnv where
  /-- The TEMP1 reply byte, `none` when the write or the read fails. -/
  temperature : Option Nat
  /-- The value of `time(NULL)`. -/
  now : Int
  /-- The device's answer to a SET_CLOCK. -/
  set_clock : Nat → Option Nat

structure TempOut where
  modminer : cgpu_info
  state : modminer_fpga_state
  wire : List Frame
  /-- Whether `modminer_reduce_clock` was called. -/
  reduce_called : Bool
  deriving DecidableEq, Repr

/-- `modminer_get_temperature` (the build without `WIN32`). -/
def modminer_get_temperature (opt_hysteresis : Int) (modminer : cgpu_info)
    (state : modminer_fpga_state) (fpgaid : Nat) (env : TempEnv) : TempOut :=
  match port_reply modminer.device_fd env.temperature with
  | none => ⟨modminer, state, [Frame.TEMP1 fpgaid], false⟩
  | some b =>
    let temperature := char_value b
    let state := { state with temp := to_uchar temperature }
    if temperature > modminer.targettemp + opt_hysteresis then
      if state.last_cutoff_reduced ≠ env.now then
        let state := { state with last_cutoff_reduced := env.now }
        let r := modminer_reduce_clock modminer state fpgaid env.set_clock
        ⟨r.modminer,
         { r.state with dclk := { r.state.dclk with freqMaxM := r.state.dclk.freqM } },
         Frame.TEMP1 fpgaid :: r.wire, true⟩
      else
        ⟨modminer, state, [Frame.TEMP1 fpgaid], false⟩
    else if state.dclk.freqMaxM < state.freqMaxMaxM ∧ temperature < modminer.targettemp then
      if temperature < modminer.targettemp - opt_hysteresis then
        ⟨modminer, { state with dclk := { state.dclk with freqMaxM := state.freqMaxMaxM } },
         [Frame.TEMP1 fpgaid], false⟩
      else
        ⟨modminer,
         { state with dclk := { state.dclk with freqMaxM := to_uchar (state.dclk.freqMaxM + 1) } },
         [Frame.TEMP1 fpgaid], false⟩
    else
      ⟨modminer, state, [Frame.TEMP1 fpgaid], false⟩

/-! ## Bitstream upload -/

/-- Outcome of writing one piece of the PROGRAM exchange and reading its
status byte. -/
inductive ChunkAck where
  | write_failed
  | read_failed
  | status (b : Nat)
  deriving DecidableEq, Repr

/-- What the environment answers during `modminer_fpga_upload_bitstream`.
The per-chunk answers are indexed by the number of bytes still to send when
the chunk is read from the file. -/
structure UploadEnv where
  /-- Length given by `open_xilinx_bitstream`, `none` when it fails. -/
  flen : Option Nat
  cmd : ChunkAck
  fread_ok : Nat → Bool
  chunk : Nat → ChunkAck
  final : ChunkAck

structure UploadOut where
  rv : Bool
  modminer : cgpu_info
  /-- The values stored into `thr[0]`'s `pdone`, oldest first. -/
  pdone_log : List Nat
  wire : List Frame
  deriving DecidableEq, Repr

/-- The macro `status_read`: `true` when a byte was read and it is 1. -/
def status_read (fd : Fd) (a : ChunkAck) : Bool :=
  match a with
  | ChunkAck.status b => decide (fd = Fd.valid) && decide (b % 256 = 1)
  | _ => false

/-- Whether the `write` of a piece succeeded. -/
def write_ok (fd : Fd) (a : ChunkAck) : Bool :=
  match a with
  | ChunkAck.write_failed => false
  | _ => decide (fd = Fd.valid)

/-- The `while (len)` loop of `modminer_fpga_upload_bitstream`; `len` and
`flen` are `unsigned long` (64 bits).  The first argument bounds the number of
iterations; `none` is returned when it is used up. -/
def upload_loop (modminer : cgpu_info) (env : UploadEnv) (flen : Nat) :
    Nat → Nat → List Nat → List Frame → Option UploadOut
  | 0, len, log, wire =>
    if len = 0 then
      if status_read modminer.device_fd env.final then some ⟨true, modminer, log, wire⟩
      else some ⟨false, _bailout modminer, log, wire⟩
    else none
  | fuel + 1, len, log, wire =>
    if len = 0 then
      if status_read modminer.device_fd env.final then some ⟨true, modminer, log, wire⟩
      else some ⟨false, _bailout modminer, log, wire⟩
    else
      let buflen := if len < 32 then len else 32
      if !env.fread_ok len then some ⟨false, _bailout modminer, log, wire⟩
      else if !write_ok modminer.device_fd (env.chunk len) then
        some ⟨false, _bailout modminer, log, wire ++ [Frame.DATA buflen]⟩
      else
        let pdone := to_uchar (((100 + 2 ^ 64 - (len * 100) % 2 ^ 64 / flen : Nat) : Int) % 2 ^ 64)
        if !status_read modminer.device_fd (env.chunk len) then
          some ⟨false, _bailout modminer, log ++ [pdone], wire ++ [Frame.DATA buflen]⟩
        else
          upload_loop modminer env flen fuel (len - buflen) (log ++ [pdone])
            (wire ++ [Frame.DATA buflen])

/-- `modminer_fpga_upload_bitstream`. -/
def modminer_fpga_upload_bitstream (modminer : cgpu_info) (env : UploadEnv) :
    Option UploadOut :=
  match env.flen with
  | none => some ⟨false, modminer, [], []⟩
  | some flen =>
    let flen := flen % 2 ^ 64
    let wire := [Frame.PROGRAM FPGAID_ALL (flen % 2 ^ 32)]
    if !write_ok modminer.device_fd env.cmd then some ⟨false, _bailout modminer, [], wire⟩
    else if !status_read modminer.device_fd env.cmd then
      some ⟨false, _bailout modminer, [], wire⟩
    else upload_loop modminer env flen flen flen [] wire

/-! ## Per-FPGA initialisation -/

/-- What the environment answers during `modminer_fpga_init`.  Every clock
byte is commanded at most once during the initialisation, so the answers to
SET_CLOCK are indexed by the clock byte, and the CHECK_WORK that follows an
accepted SET_CLOCK by the same byte. -/
structure InitEnv where
  /-- The 4 bytes answered to GET_USERCODE, `none` for a failed write or read. -/
  usercode : Option (List Nat)
  /-- The value of `opt_force_dev_init && modminer->status == LIFE_INIT`. -/
  force_dev_init : Bool
  upload : UploadEnv
  set_clock : Nat → Option Nat
  check_work : Nat → Option Nat

structure InitOut where
  rv : Bool
  modminer : cgpu_info
  state : modminer_fpga_state
  /-- The values stored into `thr[0]`'s `pdone` by the upload. -/
  pdone_log : List Nat
  wire : List Frame
  deriving DecidableEq, Repr

/-- The `while (1)` loop of `modminer_fpga_init` that searches the highest
clock the device takes.  The first argument bounds the number of iterations;
`none` is returned when it is used up. -/
def calibration_loop (fpgaid : Nat) (env : InitEnv) :
    Nat → cgpu_info → modminer_fpga_state → List Frame → Option ClockOut
  | 0, _, _, _ => none
  | fuel + 1, modminer, state, wire =>
    if state.dclk.freqM ≤ MODMINER_MIN_CLOCK / 2 then
      some ⟨false, _bailout modminer, state, wire⟩
    else
      let state := { state with dclk := { state.dclk with freqM := state.dclk.freqM - 1 } }
      let r := modminer_change_clock modminer state fpgaid 0 env.set_clock
      if !r.rv then
        calibration_loop fpgaid env fuel r.modminer r.state (wire ++ r.wire)
      else
        let n := _modminer_get_nonce r.modminer fpgaid (env.check_work (r.state.dclk.freqM * 2))
        match n.1 with
        | none => some ⟨false, _bailout r.modminer, r.state, wire ++ r.wire ++ n.2⟩
        | some nonce =>
          if nonce % 2 ^ 32 = NONCE_DISABLED then
            calibration_loop fpgaid env fuel r.modminer r.state (wire ++ r.wire ++ n.2)
          else
            some ⟨true, r.modminer, r.state, wire ++ r.wire ++ n.2⟩

/-- The part of `modminer_fpga_init` after the USER code check: `pdone = 101`,
the calibration search, the step down to the default clock. -/
def modminer_fpga_init_clock (modminer : cgpu_info) (state : modminer_fpga_state)
    (fpgaid : Nat) (env : InitEnv) (log : List Nat) (wire : List Frame) : Option InitOut :=
  let state := { state with pdone := 101 }
  let state := { state with dclk := { state.dclk with freqM := MODMINER_MAX_CLOCK / 2 + 1 } }
  match calibration_loop fpgaid env (MODMINER_MAX_CLOCK / 2 + 1) modminer state wire with
  | none => none
  | some c =>
    if !c.rv then some ⟨false, c.modminer, c.state, log, c.wire⟩
    else
      let state := { c.state with
        freqMaxMaxM := c.state.dclk.freqM,
        dclk := { c.state.dclk with freqMaxM := c.state.dclk.freqM } }
      let d :=
        if MODMINER_DEF_CLOCK / 2 < state.dclk.freqM then
          modminer_change_clock c.modminer state fpgaid
            (-((state.dclk.freqM : Int) * 2 - MODMINER_DEF_CLOCK)) env.set_clock
        else ⟨true, c.modminer, state, []⟩
      let state := { d.state with dclk := { d.state.dclk with freqMDefault := d.state.dclk.freqM } }
      some ⟨true, d.modminer, state, log, c.wire ++ d.wire⟩

/-- `modminer_fpga_init`.  The upload writes its progress into the record of
FPGA 0, which is `state` when `fpgaid` is 0. -/
def modminer_fpga_init (modminer : cgpu_info) (state : modminer_fpga_state)
    (fpgaid : Nat) (env : InitEnv) : Option InitOut :=
  if modminer.device_fd = Fd.minus_one then some ⟨false, modminer, state, [], []⟩
  else
    let wire := [Frame.GET_USERCODE fpgaid]
    match port_reply modminer.device_fd env.usercode with
    | none => some ⟨false, _bailout modminer, state, [], wire⟩
    | some buf =>
      if buf ≠ BISTREAM_USER_ID ∨ env.force_dev_init then
        match modminer_fpga_upload_bitstream modminer env.upload with
        | none => none
        | some u =>
          let state :=
            if fpgaid = 0 then { state with pdone := u.pdone_log.getLast?.getD state.pdone }
            else state
          if !u.rv then some ⟨false, u.modminer, state, u.pdone_log, wire ++ u.wire⟩
          else modminer_fpga_init_clock u.modminer state fpgaid env u.pdone_log (wire ++ u.wire)
      else modminer_fpga_init_clock modminer state fpgaid env [] wire

/-! ## Work pipeline -/

/-- `memcmp(a, b, n) == 0` on byte buffers. -/
def bytes_eq (a b : List Nat) (n : Nat) : Bool := decide (a.take n = b.take n)

/-- `modminer_prepare_next_work`: the C return value and the new state. -/
def modminer_prepare_next_work (state : modminer_fpga_state) (w : work) :
    Bool × modminer_fpga_state :=
  let midstate := state.next_work_cmd.drop 2
  let taildata := midstate.drop 32
  if !(!bytes_eq midstate w.midstate 32 || !bytes_eq taildata (w.data.drop 64) 12) then
    (false, state)
  else
    (true, { state with next_work_cmd :=
      state.next_work_cmd.take 2 ++ w.midstate.take 32 ++ (w.data.drop 64).take 12 ++
        state.next_work_cmd.drop 46 })

/-- What the environment answers during `modminer_start_work`. -/
structure StartEnv where
  /-- Whether `serial_open` succeeds, should a reopen be tried. -/
  serial_ok : Bool
  /-- Outcome of writing the 46-byte frame and reading its status byte. -/
  ack : ChunkAck
  /-- The value of `gettimeofday`, in microseconds. -/
  now_us : Int

structure StartOut where
  rv : Bool
  modminer : cgpu_info
  state : modminer_fpga_state
  wire : List Frame
  deriving DecidableEq, Repr

/-- `modminer_start_work`. -/
def modminer_start_work (modminer : cgpu_info) (state : modminer_fpga_state)
    (env : StartEnv) : StartOut :=
  let r :=
    if modminer.device_fd = Fd.minus_one then modminer_reopen modminer env.serial_ok
    else (true, modminer)
  if !r.1 then ⟨false, r.2, state, []⟩
  else
    let modminer := r.2
    let wire := [Frame.SEND_WORK state.next_work_cmd]
    if !write_ok modminer.device_fd env.ack then ⟨false, _bailout modminer, state, wire⟩
    else
      let state := { state with tv_workstart := env.now_us, hashes := 0 }
      if !status_read modminer.device_fd env.ack then ⟨false, _bailout modminer, state, wire⟩
      else ⟨true, modminer, state, wire⟩

/-- The record the local pointer `work` of `modminer_process_results` points
to. -/
inductive WorkSel where
  | running_work
  | last_work
  deriving DecidableEq, Repr

/-- What the environment answers in one iteration of the polling loop. -/
structure PollEvent where
  /-- The CHECK_WORK answer as a little-endian word, `none` for a failure. -/
  reply : Option Nat
  /-- The value of `work_restart(thr)` read after the reply is handled. -/
  restart_after_reply : Bool
  /-- The value of `work_restart(thr)` read after the sleep. -/
  restart_after_sleep : Bool

/-- The variables the polling loop of `modminer_process_results` updates.
`submitted` lists the calls of `submit_nonce`, oldest first. -/
structure PollState where
  modminer : cgpu_info
  state : modminer_fpga_state
  hw_errors : Nat
  work : WorkSel
  immediate_nonces : Nat
  immediate_bad_nonces : Nat
  submitted : List (WorkSel × Nat)
  wire : List Frame
  deriving DecidableEq, Repr

/-- The record `work` points to. -/
def deref_work (p : PollState) : ModMiner.work :=
  match p.work with
  | WorkSel.running_work => p.state.running_work
  | WorkSel.last_work => p.state.last_work

/-- The handling of one CHECK_WORK reply in `modminer_process_results`:
`if (memcmp(&nonce, "\xff\xff\xff\xff", 4)) { ... }`, the reply being the four
bytes read as a little-endian word. -/
def process_nonce (test_nonce : work → Nat → Bool) (p : PollState) (reply : Nat) :
    PollState :=
  if reply % 2 ^ 32 = NONCE_NONE then p
  else
    let nonce := reply % 2 ^ 32
    let bad := !test_nonce (deref_work p) nonce
    let p := { p with immediate_nonces := p.immediate_nonces + 1 }
    let p_bad : PollState × Bool :=
      if !bad then (p, bad)
      else if test_nonce p.state.last_work nonce then
        ({ p with work := WorkSel.last_work }, false)
      else (p, bad)
    let p := p_bad.1
    if !p_bad.2 then
      { p with
        state := { p.state with good_share_counter := p.state.good_share_counter + 1 },
        submitted := p.submitted ++ [(p.work, nonce)] }
    else
      { p with
        hw_errors := p.hw_errors + 1,
        modminer := { p.modminer with hw_errors := p.modminer.hw_errors + 1 },
        state := { p.state with bad_share_counter := p.state.bad_share_counter + 1 },
        immediate_bad_nonces := p.immediate_bad_nonces + 1 }

/-- The `while (1)` loop of `modminer_process_results`.  The first argument
is the value of `iter` at the head of the iteration (the loop is entered with
200 and leaves when the decrement reaches 0), the second the number of
iterations done.  The result is `false` when `_modminer_get_nonce` failed. -/
def poll_loop (test_nonce : work → Nat → Bool) (fpgaid : Nat) (poll : Nat → PollEvent) :
    Nat → Nat → PollState → Bool × PollState
  | 0, _, p => (true, p)
  | iter + 1, i, p =>
    let n := _modminer_get_nonce p.modminer fpgaid (poll i).reply
    let p := { p with wire := p.wire ++ n.2 }
    match n.1 with
    | none => (false, p)
    | some nonce =>
      let p := process_nonce test_nonce p nonce
      if (poll i).restart_after_reply || decide (iter = 0) then (true, p)
      else if (poll i).restart_after_sleep then (true, p)
      else poll_loop test_nonce fpgaid poll iter (i + 1) p

/-- The hash estimate at the end of `modminer_process_results`: `e` is the
64-bit count of elapsed microseconds, `h` the value of `state->hashes`.  The
result is the returned credit and the new `state->hashes` (`uint32_t`). -/
def hashes_credit (freqM : Nat) (e : Nat) (h : Nat) : Nat × Nat :=
  let hashes := (freqM * 2 * e) % 2 ^ 64
  let hashes := if hashes > 0xffffffff then 0xffffffff else hashes
  let hashes := if hashes ≤ h then 1 else hashes - h
  (hashes, (h + hashes) % 2 ^ 32)

/-- Modelled from the spec: `dclk_updateFreq` of dynclock.c, which is not
among the sources.  It changes the clock at most once per call: `request` is
the multiplier it hands to the callback `changeclock`, if it calls it. -/
def dclk_updateFreq (request : Option Int) (changeclock : Int → ClockOut)
    (unchanged : ClockOut) : ClockOut :=
  match request with
  | none => unchanged
  | some multiplier => changeclock multiplier

/-- What the environment answers during `modminer_process_results`. -/
structure ResultsEnv where
  temp : TempEnv
  poll : Nat → PollEvent
  /-- Whether `serial_open` succeeds, should a reopen be tried. -/
  serial_ok : Bool
  /-- The value of `gettimeofday` at the end of the cycle, in microseconds. -/
  tv_workend : Int
  /-- The multiplier `dclk_updateFreq` asks for, if any. -/
  request : Option Int
  set_clock : Nat → Option Nat

structure ResultsOut where
  rv : Int
  modminer : cgpu_info
  state : modminer_fpga_state
  hw_errors : Nat
  submitted : List (WorkSel × Nat)
  wire : List Frame
  /-- Whether a reopen of the port was tried (`safebailout`). -/
  reopen_called : Bool
  deriving DecidableEq, Repr

/-- `modminer_process_results`. -/
def modminer_process_results (test_nonce : work → Nat → Bool) (opt_hysteresis : Int)
    (modminer : cgpu_info) (state : modminer_fpga_state) (hw_errors : Nat) (fpgaid : Nat)
    (env : ResultsEnv) : ResultsOut :=
  let t := modminer_get_temperature opt_hysteresis modminer state fpgaid env.temp
  let l := poll_loop test_nonce fpgaid env.poll 200 0
    ⟨t.modminer, t.state, hw_errors, WorkSel.running_work, 0, 0, [], t.wire⟩
  let p := l.2
  if !l.1 then
    let state := { p.state with work_running := false }
    let r := modminer_reopen p.modminer env.serial_ok
    ⟨if r.1 then 0 else -1, r.2, state, p.hw_errors, p.submitted, p.wire, true⟩
  else
    let elapsed := env.tv_workend - p.state.tv_workstart
    let c := hashes_credit p.state.dclk.freqM (elapsed % 2 ^ 64).toNat p.state.hashes
    let state := { p.state with hashes := c.2 }
    let d := dclk_updateFreq env.request
      (fun m => modminer_dclk_change_clock p.modminer state fpgaid m env.set_clock)
      ⟨true, p.modminer, state, []⟩
    ⟨c.1, d.modminer, d.state, p.hw_errors, p.submitted, p.wire ++ d.wire, false⟩

/-- What the environment answers during `modminer_scanhash`. -/
structure ScanEnv where
  results : ResultsEnv
  /-- The value of `work_restart(thr)` read after `modminer_process_results`. -/
  restart : Bool
  start : StartEnv

structure ScanOut where
  rv : Int
  modminer : cgpu_info
  state : modminer_fpga_state
  /-- The caller's work unit, with `blk.nonce` advanced. -/
  work : work
  hw_errors : Nat
  submitted : List (WorkSel × Nat)
  wire : List Frame
  reopen_called : Bool
  deriving DecidableEq, Repr

/-- `modminer_scanhash`. -/
def modminer_scanhash (test_nonce : work → Nat → Bool) (opt_hysteresis : Int)
    (modminer : cgpu_info) (state : modminer_fpga_state) (hw_errors : Nat) (fpgaid : Nat)
    (w : work) (env : ScanEnv) : ScanOut :=
  let pr := modminer_prepare_next_work state w
  let startwork := pr.1
  let state := pr.2
  if startwork then
    let state := { state with last_work := state.running_work }
    let state := { state with running_work := w }
    let s := modminer_start_work modminer state env.start
    if !s.rv then ⟨-1, s.modminer, s.state, w, hw_errors, [], s.wire, false⟩
    else ⟨0, s.modminer, s.state, w, hw_errors, [], s.wire, false⟩
  else if state.work_running then
    let r := modminer_process_results test_nonce opt_hysteresis modminer state hw_errors
      fpgaid env.results
    if env.restart then
      ⟨r.rv, r.modminer, { r.state with work_running := false }, w, r.hw_errors, r.submitted,
        r.wire, r.reopen_called⟩
    else
      ⟨r.rv, r.modminer, r.state, { w with blk_nonce := w.blk_nonce + r.rv }, r.hw_errors,
        r.submitted, r.wire, r.reopen_called⟩
  else
    ⟨0, modminer, { state with work_running := true }, w, hw_errors, [], [], false⟩

/-! ## Runtime clock override -/

/-- One board: the shared record and the records of its FPGAs
(`modminer->thr[i]->cgpu_data`); `modminer->threads` is the length of `thr`. -/
structure Board where
  modminer : cgpu_info
  thr : List modminer_fpga_state
  deriving DecidableEq, Repr

/-- The digits read by `atoi`. -/
def atoi_digits : List Char → Int → Int
  | [], acc => acc
  | c :: cs, acc =>
    if c.isDigit then atoi_digits cs (acc * 10 + ((c.toNat : Int) - 48)) else acc

/-- The libc predicate `isspace` in the C locale. -/
def isspace (c : Char) : Bool := c = ' ' || (9 ≤ c.toNat && c.toNat ≤ 13)

/-- The integer a C string denotes for `strtol` in base 10: blanks, an optional
sign, then digits; no range is applied. -/
def decimal_value (s : List Char) : Int :=
  match s.dropWhile isspace with
  | '-' :: r => - atoi_digits r 0
  | '+' :: r => atoi_digits r 0
  | r => atoi_digits r 0

/-- The libc function `strtol(s, NULL, 10)` where `long` has 64 bits: a value
outside the range of `long` gives `LONG_MAX` or `LONG_MIN`. -/
def strtol (s : List Char) : Int :=
  if decimal_value s > 2 ^ 63 - 1 then 2 ^ 63 - 1
  else if decimal_value s < -(2 ^ 63) then -(2 ^ 63)
  else decimal_value s

/-- The conversion of an integer to `int` (32 bits, two's complement). -/
def to_int (x : Int) : Int := (x + 2 ^ 31) % 2 ^ 32 - 2 ^ 31

/-- The libc function `atoi` as glibc has it, `(int) strtol(s, NULL, 10)`: the
value `int val = atoi(setting)` receives.  A string whose value an `int` cannot
hold is truncated to 32 bits ("4294967298" gives 2). -/
def atoi (s : List Char) : Int := to_int (strtol s)

/-- `strncasecmp(a, b, n) == 0` for strings without a NUL, `b` of length `n`. -/
def strncasecmp_eq (a b : List Char) (n : Nat) : Bool :=
  decide ((a.take n).map Char.toLower = b.map Char.toLower)

/-- `strcasecmp(a, b) == 0`. -/
def strcasecmp_eq (a b : List Char) : Bool :=
  decide (a.map Char.toLower = b.map Char.toLower)

structure SetOut where
  /-- The returned text, `none` for `NULL`. -/
  reply : Option String
  board : Board
  wire : List Frame
  deriving DecidableEq, Repr

/-- The `for ( ; fpgaid <= fpgaid_end; ++fpgaid)` loop of
`modminer_set_device`; the first argument is the number of FPGAs still to
visit, `set_clock fpgaid clk` the answer of FPGA `fpgaid` to SET_CLOCK. -/
def set_device_loop (multiplier : Int) (set_clock : Nat → Nat → Option Nat) :
    Nat → Nat → Board → List Frame → SetOut
  | 0, _, b, wire => ⟨none, b, wire⟩
  | n + 1, fpgaid, b, wire =>
    match b.thr[fpgaid]? with
    | none => ⟨none, b, wire⟩
    | some state =>
      let oldFreqM := state.dclk.freqM
      let delta := to_schar ((multiplier - (oldFreqM : Int)) * 2)
      let state := { state with dclk := { state.dclk with freqMDefault := to_uchar multiplier } }
      let r := modminer_change_clock b.modminer state fpgaid delta (set_clock fpgaid)
      let b : Board := ⟨r.modminer, b.thr.set fpgaid r.state⟩
      if !r.rv then
        ⟨some ("Set clock failed: MMQ " ++ toString fpgaid), b, wire ++ r.wire⟩
      else
        set_device_loop multiplier set_clock n (fpgaid + 1) b (wire ++ r.wire)

/-- `modminer_set_device`; `setting` is `none` for a null pointer.  The reply
texts are abridged.  `fpgaid` is `abs(atoi(&option[5]))`; `abs(INT_MIN)` is
undefined in C and is 2^31 here, above every FPGA number an `int` can hold. -/
def modminer_set_device (b : Board) (option : List Char) (setting : Option (List Char))
    (set_clock : Nat → Nat → Option Nat) : SetOut :=
  if strcasecmp_eq option "help".toList then
    ⟨some "clock: range 2-230 and a multiple of 2", b, []⟩
  else if strncasecmp_eq option "clock".toList 5 then
    let threads := b.thr.length
    let fpgaid : Nat := if option.length > 5 then (atoi (option.drop 5)).natAbs else 0
    let fpgaid_end : Int := if option.length > 5 then (fpgaid : Int) else (threads : Int) - 1
    if fpgaid ≥ threads then
      ⟨some ("invalid fpga: " ++ String.mk (option.drop 5)), b, []⟩
    else
      match setting with
      | none => ⟨some "missing clock setting", b, []⟩
      | some [] => ⟨some "missing clock setting", b, []⟩
      | some (c :: cs) =>
        let val := atoi (c :: cs)
        if val < MODMINER_MIN_CLOCK ∨ val > MODMINER_MAX_CLOCK ∨ val % 2 ≠ 0 then
          ⟨some ("invalid clock: " ++ String.mk (c :: cs)), b, []⟩
        else
          let multiplier := val / 2
          set_device_loop multiplier set_clock (fpgaid_end + 1 - fpgaid).toNat fpgaid b []
  else
    ⟨some ("Unknown option: " ++ String.mk option), b, []⟩

/-! ## Traces of clock operations on a board -/

/-- The operations that write the clock fields of a calibrated board. -/
inductive Action where
  /-- A `modminer_get_temperature` on FPGA `fpgaid`. -/
  | thermal (fpgaid : Nat) (env : TempEnv)
  /-- A call of `modminer_dclk_change_clock`, the callback of the governor, on
  FPGA `fpgaid` with the multiplier `multiplier`. -/
  | governor (fpgaid : Nat) (multiplier : Int) (set_clock : Nat → Option Nat)
  /-- A `modminer_set_device`. -/
  | user (option : List Char) (setting : Option (List Char))
      (set_clock : Nat → Nat → Option Nat)

/-- Whether the action is a user override. -/
def Action.is_user : Action → Bool
  | Action.user _ _ _ => true
  | _ => false

/-- One operation on a board, each by the function of the driver that performs
it: `modminer_get_temperature`, `modminer_dclk_change_clock` or
`modminer_set_device`.  `none` when the operation names an FPGA the board does
not have, or when `modminer_dclk_change_clock` is called with a multiplier
outside `[MODMINER_MIN_CLOCK / 2, freqMaxM]`: the range is a condition on the
call, and the caller of the callback is not part of the step. -/
def step (opt_hysteresis : Int) (b : Board) : Action → Option Board
  | Action.thermal fpgaid env =>
    match b.thr[fpgaid]? with
    | none => none
    | some state =>
      let t := modminer_get_temperature opt_hysteresis b.modminer state fpgaid env
      some ⟨t.modminer, b.thr.set fpgaid t.state⟩
  | Action.governor fpgaid multiplier set_clock =>
    match b.thr[fpgaid]? with
    | none => none
    | some state =>
      if (MODMINER_MIN_CLOCK / 2 : Nat) ≤ multiplier ∧ multiplier ≤ state.dclk.freqMaxM then
        let r := modminer_dclk_change_clock b.modminer state fpgaid multiplier set_clock
        some ⟨r.modminer, b.thr.set fpgaid r.state⟩
      else none
  | Action.user option setting set_clock =>
    some (modminer_set_device b option setting set_clock).board

/-- A sequence of operations, oldest first. -/
def run (opt_hysteresis : Int) : Board → List Action → Option Board
  | b, [] => some b
  | b, a :: as =>
    match step opt_hysteresis b a with
    | none => none
    | some b1 => run opt_hysteresis b1 as

/-- The FPGA record is the result of a successful `modminer_fpga_init`. -/
def Calibrated (st : modminer_fpga_state) : Prop :=
  ∃ (modminer : cgpu_info) (state : modminer_fpga_state) (fpgaid : Nat) (env : InitEnv)
    (o : InitOut),
    modminer_fpga_init modminer state fpgaid env = some o ∧ o.rv = true ∧ st = o.state

/-! ## Vocabulary of the statements -/

/-- `modminer_fpga_prepare`: the zeroed record with the opcode and the FPGA id
in `next_work_cmd`. -/
def modminer_fpga_prepare (fpgaid : Nat) : modminer_fpga_state :=
  { work_running := false, running_work := ⟨[], [], 0⟩, last_work := ⟨[], [], 0⟩,
    tv_workstart := 0, hashes := 0,
    next_work_cmd := 8 :: to_uchar fpgaid :: List.replicate 44 0,
    dclk := ⟨0, 0, 0⟩, freqMaxMaxM := 0, bad_share_counter := 0, good_share_counter := 0,
    last_cutoff_reduced := 0, temp := 0, pdone := 0 }

/-- The clock bytes of the SET_CLOCK frames of a trace, oldest first. -/
def set_clocks (wire : List Frame) : List Nat :=
  wire.filterMap (fun fr => match fr with | Frame.SET_CLOCK _ clk => some clk | _ => none)

/-- The record with `dclk.freqM` replaced. -/
def set_freqM (s : modminer_fpga_state) (k : Nat) : modminer_fpga_state :=
  { s with dclk := { s.dclk with freqM := k } }

/-- A device without I/O errors that answers by the halved frequency `f`:
`(dev f).1` tells whether SET_CLOCK of `2 * f` is accepted, `(dev f).2` is the
CHECK_WORK reply at that clock. -/
def device_env (dev : Nat → Bool × Nat) (base : InitEnv) : InitEnv :=
  { base with
    set_clock := fun clk => some (if (dev (clk / 2)).1 then 1 else 0),
    check_work := fun clk => some (dev (clk / 2)).2 }

/-- The halved frequency `f` is accepted and its CHECK_WORK reply is not
`00 ff ff ff`. -/
def usable (dev : Nat → Bool × Nat) (f : Nat) : Bool :=
  (dev f).1 && decide ((dev f).2 % 2 ^ 32 ≠ NONCE_DISABLED)

/-- The clock bytes `2 * k, 2 * (k - 1), ..., 2`. -/
def tried : Nat → List Nat
  | 0 => []
  | k + 1 => 2 * (k + 1) :: tried k

/-- The board is programmed already, or the upload of the bitstream succeeds. -/
def programmed (modminer : cgpu_info) (env : InitEnv) : Prop :=
  ∃ buf, env.usercode = some buf ∧
    ((buf = BISTREAM_USER_ID ∧ env.force_dev_init = false) ∨
     ∃ u, modminer_fpga_upload_bitstream modminer env.upload = some u ∧ u.rv = true)

/-- An upload environment for boards that need no programming. -/
def no_upload : UploadEnv :=
  ⟨none, ChunkAck.write_failed, fun _ => false, fun _ => ChunkAck.write_failed,
    ChunkAck.write_failed⟩

/-- A board that answers GET_USERCODE with the signature. -/
def programmed_env : InitEnv :=
  ⟨some BISTREAM_USER_ID, false, no_upload, fun _ => none, fun _ => none⟩

/-- A device that rejects 230 MHz and accepts every other clock, with no
nonce to report. -/
def device_228 : Nat → Bool × Nat :=
  fun f => if f = 115 then (false, 0) else (true, 0xFFFFFFFF)

/-- A calibrated FPGA running at 200 MHz with a ceiling of 228 MHz. -/
def state_100 : modminer_fpga_state :=
  { modminer_fpga_prepare 0 with dclk := ⟨100, 114, 100⟩, freqMaxMaxM := 114, pdone := 101 }

/-- A device that accepts every SET_CLOCK. -/
def accepts : Nat → Option Nat := fun _ => some 1

/-- The libc call `time(NULL)`: the whole seconds of the wallclock, here
given in milliseconds. -/
def time_NULL (wallclock_ms : Nat) : Int := ((wallclock_ms / 1000 : Nat) : Int)

/-- Successive `modminer_get_temperature` steps on one FPGA; the results,
oldest first. -/
def thermal_steps (opt_hysteresis : Int) (fpgaid : Nat) :
    cgpu_info → modminer_fpga_state → List TempEnv → List TempOut
  | _, _, [] => []
  | modminer, state, e :: es =>
    let o := modminer_get_temperature opt_hysteresis modminer state fpgaid e
    o :: thermal_steps opt_hysteresis fpgaid o.modminer o.state es

/-- The number of steps that called `modminer_reduce_clock`. -/
def reduce_calls (outs : List TempOut) : Nat :=
  (outs.filter (fun o => o.reduce_called)).length

/-- The thermal environment of a reading: the wallclock in milliseconds, the
TEMP1 reply byte and the device's answer to a SET_CLOCK. -/
def reading_at (r : Nat × Nat × (Nat → Option Nat)) : TempEnv :=
  ⟨some r.2.1, time_NULL r.1, r.2.2⟩

/-- A work unit whose midstate and data bytes all equal `tag`. -/
def work_of (tag : Nat) : work := ⟨List.replicate 32 tag, List.replicate 80 tag, 0⟩

/-- A stand-in for the host's `test_nonce`: the nonce's low byte names the work. -/
def test_nonce_tag (w : work) (nonce : Nat) : Bool := decide (w.midstate.head? = some (nonce % 256))

/-- An FPGA hashing work 1, with work 2 as the previous job. -/
def state_hashing : modminer_fpga_state :=
  { state_100 with
    work_running := true
    running_work := work_of 1
    last_work := work_of 2
    next_work_cmd := 8 :: 0 :: (List.replicate 32 1 ++ List.replicate 12 1) }

/-- A polling loop that sees the replies `replies` and then a work restart. -/
def poll_replies (replies : List Nat) : Nat → PollEvent :=
  fun i => ⟨some (replies.getD i NONCE_NONE), decide (replies.length ≤ i + 1), false⟩

/-- A thermal environment whose TEMP1 transaction fails. -/
def quiet_temp : TempEnv := ⟨none, 0, fun _ => none⟩

/-- A cycle with the given CHECK_WORK replies, no temperature reading and no
request of the governor. -/
def results_env (replies : List Nat) : ResultsEnv :=
  ⟨quiet_temp, poll_replies replies, true, 1000000, none, fun _ => none⟩

/-- The frames of the SEND_WORK commands of a trace, oldest first. -/
def send_works (wire : List Frame) : List (List Nat) :=
  wire.filterMap (fun fr => match fr with | Frame.SEND_WORK cmd => some cmd | _ => none)

/-- The staged frame and the two retained work units are the same in both
records. -/
def same_works (s s1 : modminer_fpga_state) : Prop :=
  s1.next_work_cmd = s.next_work_cmd ∧ s1.running_work = s.running_work ∧
    s1.last_work = s.last_work

/-- A scanhash cycle in which nothing is polled and the SEND_WORK, if one is
sent, is acknowledged. -/
def quiet_scan : ScanEnv := ⟨results_env [], false, ⟨true, ChunkAck.status 1, 0⟩⟩

/-- The polling loop gets to its iteration `i` (no failure and no work restart
before it) and the CHECK_WORK write or read of that iteration fails. -/
def check_work_fails (poll : Nat → PollEvent) (i : Nat) : Prop :=
  i < 200 ∧ (poll i).reply = none ∧
    ∀ j, j < i → (poll j).reply ≠ none ∧ (poll j).restart_after_reply = false ∧
      (poll j).restart_after_sleep = false

/-- A cycle whose first CHECK_WORK fails; `serial_ok` tells whether the port
can be reopened. -/
def failing_scan (serial_ok : Bool) : ScanEnv :=
  ⟨⟨quiet_temp, fun _ => ⟨none, false, false⟩, serial_ok, 1000000, none, fun _ => none⟩, false,
    ⟨true, ChunkAck.status 1, 0⟩⟩

/-- FPGA `k` accepts a SET_CLOCK of the byte `clk`: the port is open and the
reply byte is not zero. -/
def accepted (fd : Fd) (set_clock : Nat → Nat → Option Nat) (k clk : Nat) : Bool :=
  match port_reply fd (set_clock k clk) with
  | some r => decide (r % 256 ≠ 0)
  | none => false

/-- FPGA `k` answers a SET_CLOCK of the byte `clk` with 0. -/
def answers_zero (fd : Fd) (set_clock : Nat → Nat → Option Nat) (k clk : Nat) : Prop :=
  ∃ r, port_reply fd (set_clock k clk) = some r ∧ r % 256 = 0

/-- The option `clock` or `clockN` targets FPGA `k` of a board with `threads`
FPGAs. -/
def targeted (option : List Char) (threads k : Nat) : Prop :=
  k < threads ∧ (option.length > 5 → k = (atoi (option.drop 5)).natAbs)

/-- The record with `dclk.freqMDefault` replaced. -/
def set_freqMDefault (s : modminer_fpga_state) (k : Nat) : modminer_fpga_state :=
  { s with dclk := { s.dclk with freqMDefault := k } }

/-- Every FPGA rejects every SET_CLOCK. -/
def rejects : Nat → Nat → Option Nat := fun _ _ => some 0

/-- Each of the three clock fields lies within the limits:
`MODMINER_MIN_CLOCK <= 2 * f <= MODMINER_MAX_CLOCK`. -/
def within_limits (s : modminer_fpga_state) : Prop :=
  (MODMINER_MIN_CLOCK ≤ s.dclk.freqM * 2 ∧ s.dclk.freqM * 2 ≤ MODMINER_MAX_CLOCK) ∧
  (MODMINER_MIN_CLOCK ≤ s.dclk.freqMaxM * 2 ∧ s.dclk.freqMaxM * 2 ≤ MODMINER_MAX_CLOCK) ∧
  (MODMINER_MIN_CLOCK ≤ s.freqMaxMaxM * 2 ∧ s.freqMaxMaxM * 2 ≤ MODMINER_MAX_CLOCK)

/-- The chain `MODMINER_MIN_CLOCK <= freqM*2 <= freqMaxM*2 <= freqMaxMaxM*2 <=
MODMINER_MAX_CLOCK`. -/
def clock_chain (s : modminer_fpga_state) : Prop :=
  MODMINER_MIN_CLOCK ≤ s.dclk.freqM * 2 ∧ s.dclk.freqM * 2 ≤ s.dclk.freqMaxM * 2 ∧
  s.dclk.freqMaxM * 2 ≤ s.freqMaxMaxM * 2 ∧ s.freqMaxMaxM * 2 ≤ MODMINER_MAX_CLOCK

/-- A board with one calibrated FPGA at 200 MHz. -/
def board1 : Board := ⟨⟨Fd.valid, 80, 0⟩, [state_100]⟩

/-- A reading of 90 degrees in second 5, on a device that accepts. -/
def hot_reading : TempEnv := ⟨some 90, 5, accepts⟩

/-- The FPGA of `state_100` after one thermal throttle in second 5. -/
def state_99 : modminer_fpga_state :=
  { state_100 with dclk := ⟨99, 99, 100⟩, temp := 90, last_cutoff_reduced := 5 }

/-- The sizes of the DATA frames of a trace, oldest first. -/
def data_frames (wire : List Frame) : List Nat :=
  wire.filterMap (fun fr => match fr with | Frame.DATA n => some n | _ => none)

/-- The chunks `len` bytes are sent in: chunks of 32 bytes, then one of
`len mod 32` bytes when that is not zero. -/
def chunk_sizes (len : Nat) : List Nat :=
  List.replicate (len / 32) 32 ++ (if len % 32 = 0 then [] else [len % 32])

/-- The values `100 - floor(unsent * 100 / L)` for the chunks `len` bytes are sent
in, where `unsent` counts the bytes not yet sent when the chunk is read, the
chunk itself included. -/
def pdone_values (L len : Nat) : List Nat :=
  (List.range ((len + 31) / 32)).map (fun k => 100 - (len - 32 * k) * 100 / L)

/-- An upload of a bitstream of `L` bytes in which every read, write and status
byte is fine. -/
def upload_acked (L : Nat) : UploadEnv :=
  ⟨some L, ChunkAck.status 1, fun _ => true, fun _ => ChunkAck.status 1, ChunkAck.status 1⟩

/-- A board that answers GET_USERCODE with zeros and takes a bitstream of `L`
bytes. -/
def unprogrammed_env (L : Nat) : InitEnv :=
  ⟨some [0, 0, 0, 0], false, upload_acked L, fun _ => none, fun _ => none⟩

/-- An upload in which the status byte of every chunk fails to arrive. -/
def upload_first_nak (L : Nat) : UploadEnv :=
  ⟨some L, ChunkAck.status 1, fun _ => true, fun _ => ChunkAck.read_failed, ChunkAck.status 1⟩

/-! ## Vocabulary of the nonce accounting and of the re-send -/

/-- The number of CHECK_WORK frames of a trace. -/
def check_works (wire : List Frame) : Nat :=
  (wire.filter (fun fr => match fr with | Frame.CHECK_WORK _ => true | _ => false)).length

/-- The answers received to `k` consecutive CHECK_WORK transactions of a polling
loop, the first being the one of iteration `i`; a failed transaction gives no
answer. -/
def replies_from (fd : Fd) (poll : Nat → PollEvent) (i k : Nat) : List Nat :=
  (List.range' i k).filterMap (fun j => port_reply fd (poll j).reply)

/-- The number of CHECK_WORK answers that differ from 0xFFFFFFFF. -/
def nonce_replies (replies : List Nat) : Nat :=
  (replies.filter (fun n => decide (n % 2 ^ 32 ≠ NONCE_NONE))).length

/-- The sum `good_share_counter + bad_share_counter` of an FPGA. -/
def shares (s : modminer_fpga_state) : Nat := s.good_share_counter + s.bad_share_counter

/-- The CHECK_WORK answers received during one `modminer_scanhash` call with the
outcome `o`: one for each CHECK_WORK frame of its trace, read on the port as
`modminer_get_temperature` left it. -/
def scanhash_replies (opt_hysteresis : Int) (modminer : cgpu_info) (state : modminer_fpga_state)
    (fpgaid : Nat) (env : ScanEnv) (o : ScanOut) : List Nat :=
  replies_from
    (modminer_get_temperature opt_hysteresis modminer state fpgaid env.results.temp).modminer.device_fd
    env.results.poll 0 (check_works o.wire)

/-- The records after a sequence of `modminer_scanhash` calls, with the
CHECK_WORK answers received during them, oldest first. -/
structure CyclesOut where
  modminer : cgpu_info
  state : modminer_fpga_state
  hw_errors : Nat
  replies : List Nat

/-- A sequence of `modminer_scanhash` calls on one FPGA, each with its offered
work unit and its environment. -/
def scan_cycles (test_nonce : work → Nat → Bool) (opt_hysteresis : Int) (fpgaid : Nat) :
    cgpu_info → modminer_fpga_state → Nat → List (work × ScanEnv) → CyclesOut
  | modminer, state, hw_errors, [] => ⟨modminer, state, hw_errors, []⟩
  | modminer, state, hw_errors, c :: cs =>
    let o := modminer_scanhash test_nonce opt_hysteresis modminer state hw_errors fpgaid c.1 c.2
    let r := scan_cycles test_nonce opt_hysteresis fpgaid o.modminer o.state o.hw_errors cs
    ⟨r.modminer, r.state, r.hw_errors,
      scanhash_replies opt_hysteresis modminer state fpgaid c.2 o ++ r.replies⟩

/-- The CHECK_WORK answers received during `modminer_fpga_init`: in its trace a
CHECK_WORK only follows the SET_CLOCK of the clock byte it probes. -/
def init_replies (env : InitEnv) : List Frame → List Nat
  | Frame.SET_CLOCK _ clk :: Frame.CHECK_WORK _ :: rest =>
    (env.check_work clk).toList ++ init_replies env rest
  | _ :: rest => init_replies env rest
  | [] => []

/-- A device that accepts every clock, answers `00 ff ff ff` to the CHECK_WORK
at 230 MHz and `ff ff ff ff` below. -/
def device_disabled_230 : Nat → Bool × Nat :=
  fun f => if f = 115 then (true, 0xFFFFFF00) else (true, 0xFFFFFFFF)

/-- A device that accepts every clock and answers every CHECK_WORK with the
nonce 0x0101. -/
def device_nonce_0101 : Nat → Bool × Nat := fun _ => (true, 0x0101)

/-- Three cycles offered work 1: the frame is sent, the work is marked
running, and one poll sees the nonce 0x0101. -/
def three_cycles : List (work × ScanEnv) :=
  [(work_of 1, quiet_scan), (work_of 1, quiet_scan),
   (work_of 1, ⟨results_env [0x0101], false, ⟨true, ChunkAck.status 1, 0⟩⟩)]

/-- A `modminer_scanhash` offered work 7 on an open port, whose SEND_WORK
transaction has the outcome `ack`. -/
def failed_send (state : modminer_fpga_state) (ack : ChunkAck) : ScanOut :=
  modminer_scanhash test_nonce_tag 3 ⟨Fd.valid, 80, 0⟩ state 0 0 (work_of 7)
    ⟨results_env [], false, ⟨true, ack, 0⟩⟩

/-- The next `modminer_scanhash`, offered work 7 again, with a port that can be
reopened and a device that acknowledges a SEND_WORK. -/
def scan_again (o : ScanOut) : ScanOut :=
  modminer_scanhash test_nonce_tag 3 o.modminer o.state o.hw_errors 0 (work_of 7) quiet_scan

/-! # Lemmas and theorems -/

/-! ## Machine integers -/

theorem to_uchar_nat (n : Nat) (h : n < 256) : to_uchar (n : Int) = n := by
  unfold to_uchar; omega

theorem to_schar_small (x : Int) (h1 : -128 ≤ x) (h2 : x ≤ 127) : to_schar x = x := by
  unfold to_schar; omega

/-! ## Calibration search -/

/-- One iteration of the calibration loop on a device without I/O errors. -/
theorem calibration_step (dev : Nat → Bool × Nat) (base : InitEnv) (fpgaid fuel k : Nat)
    (m : cgpu_info) (s : modminer_fpga_state) (w : List Frame)
    (hfd : m.device_fd = Fd.valid) (hs : s.dclk.freqM = k + 1) (hk1 : 1 ≤ k) (hk2 : k ≤ 127) :
    calibration_loop fpgaid (device_env dev base) (fuel + 1) m s w =
      if usable dev k then
        some ⟨true, m, set_freqM s k, w ++ [Frame.SET_CLOCK fpgaid (2 * k)] ++ [Frame.CHECK_WORK fpgaid]⟩
      else
        calibration_loop fpgaid (device_env dev base) fuel m (set_freqM s k)
          (w ++ [Frame.SET_CLOCK fpgaid (2 * k)] ++
            (if (dev k).1 then [Frame.CHECK_WORK fpgaid] else [])) := by
  have hclk : to_uchar (((k : Nat) : Int) * 2 + to_schar 0) = 2 * k := by
    unfold to_uchar to_schar; omega
  have hmin : ¬ (k + 1 ≤ MODMINER_MIN_CLOCK / 2) := by
    unfold MODMINER_MIN_CLOCK; omega
  have hk2k : 2 * k / 2 = k := by omega
  conv_lhs => unfold calibration_loop
  simp only [hs, hmin, if_false, Nat.add_sub_cancel, modminer_change_clock, port_reply, hfd,
    if_true, hclk, device_env, hk2k, _modminer_get_nonce, usable, set_freqM]
  cases hd : (dev k).1 <;> simp [hd, hfd]

theorem set_freqM_set_freqM (s : modminer_fpga_state) (a b : Nat) :
    set_freqM (set_freqM s a) b = set_freqM s b := rfl

theorem set_clocks_append (a b : List Frame) :
    set_clocks (a ++ b) = set_clocks a ++ set_clocks b := by
  simp [set_clocks, List.filterMap_append]

/-- The search stops at the greatest usable frequency below the current one. -/
theorem calibration_found (dev : Nat → Bool × Nat) (base : InitEnv) (fpgaid f : Nat)
    (m : cgpu_info) (hfd : m.device_fd = Fd.valid) (hf1 : 1 ≤ f) (hu : usable dev f = true) :
    ∀ (fuel k : Nat) (s : modminer_fpga_state) (w : List Frame),
      k < fuel → s.dclk.freqM = k + 1 → k ≤ 127 → f ≤ k →
      (∀ g, f < g → g ≤ k → usable dev g = false) →
      ∃ w1, calibration_loop fpgaid (device_env dev base) fuel m s w =
        some ⟨true, m, set_freqM s f, w1⟩ := by
  intro fuel
  induction fuel with
  | zero => intro k s w hk; omega
  | succ fuel ih =>
    intro k s w hk hs hk2 hfk hno
    rw [calibration_step dev base fpgaid fuel k m s w hfd hs (by omega) hk2]
    by_cases hk_use : usable dev k = true
    · have hkf : k = f := by
        by_contra hne
        have := hno k (by omega) (le_refl k)
        simp [this] at hk_use
      subst hkf
      simp [hk_use]
    · have hkf : f < k := by
        rcases Nat.lt_or_ge f k with h | h
        · exact h
        · have : k = f := by omega
          subst this; exact absurd hu hk_use
      have hk_use2 : usable dev k = false := by simpa using hk_use
      simp only [hk_use2, Bool.false_eq_true, if_false]
      obtain ⟨w1, hw1⟩ := ih (k - 1) (set_freqM s k) _ (by omega)
        (by simp [set_freqM]; omega) (by omega) (by omega)
        (fun g hg1 hg2 => hno g hg1 (by omega))
      exact ⟨w1, by rw [hw1, set_freqM_set_freqM]⟩

/-- With no usable frequency the search tries every clock and fails. -/
theorem calibration_none (dev : Nat → Bool × Nat) (base : InitEnv) (fpgaid : Nat)
    (m : cgpu_info) (hfd : m.device_fd = Fd.valid) :
    ∀ (fuel k : Nat) (s : modminer_fpga_state) (w : List Frame),
      k < fuel → s.dclk.freqM = k + 1 → k ≤ 127 →
      (∀ g, 1 ≤ g → g ≤ k → usable dev g = false) →
      ∃ c, calibration_loop fpgaid (device_env dev base) fuel m s w = some c ∧ c.rv = false ∧
        set_clocks c.wire = set_clocks w ++ tried k := by
  intro fuel
  induction fuel with
  | zero => intro k s w hk; omega
  | succ fuel ih =>
    intro k s w hk hs hk2 hno
    cases k with
    | zero =>
      refine ⟨⟨false, _bailout m, s, w⟩, ?_, rfl, by simp [tried]⟩
      unfold calibration_loop
      simp [hs, MODMINER_MIN_CLOCK]
    | succ k =>
      rw [calibration_step dev base fpgaid fuel (k + 1) m s w hfd hs (by omega) hk2]
      have hk_use := hno (k + 1) (by omega) (le_refl _)
      simp only [hk_use, Bool.false_eq_true, if_false]
      obtain ⟨c, hc, hrv, hw⟩ := ih k (set_freqM s (k + 1)) _ (by omega)
        (by simp [set_freqM]) (by omega) (fun g hg1 hg2 => hno g hg1 (by omega))
      refine ⟨c, hc, hrv, ?_⟩
      rw [hw]
      by_cases hd : (dev (k + 1)).1 = true <;>
        simp [set_clocks_append, set_clocks, tried, hd]

/-- A successful upload leaves the device record alone, and no upload sends a
SET_CLOCK. -/
theorem upload_loop_spec (m : cgpu_info) (env : UploadEnv) (flen : Nat) :
    ∀ (fuel len : Nat) (log : List Nat) (wire : List Frame) (u : UploadOut),
      upload_loop m env flen fuel len log wire = some u →
      (u.rv = true → u.modminer = m) ∧ set_clocks u.wire = set_clocks wire := by
  intro fuel
  induction fuel with
  | zero =>
    intro len log wire u h
    unfold upload_loop at h
    split at h
    · split at h <;> (cases h; simp)
    · cases h
  | succ fuel ih =>
    intro len log wire u h
    unfold upload_loop at h
    split at h
    · split at h <;> (cases h; simp)
    · simp only at h
      split at h
      · cases h; simp
      · split at h
        · cases h; simp [set_clocks_append, set_clocks]
        · split at h
          · cases h; simp [set_clocks_append, set_clocks]
          · have := ih _ _ _ _ h
            simpa [set_clocks_append, set_clocks] using this

theorem upload_bitstream_spec (m : cgpu_info) (env : UploadEnv) (u : UploadOut)
    (h : modminer_fpga_upload_bitstream m env = some u) :
    (u.rv = true → u.modminer = m) ∧ set_clocks u.wire = [] := by
  unfold modminer_fpga_upload_bitstream at h
  split at h
  · cases h; simp [set_clocks]
  · simp only at h
    split at h
    · cases h; simp [set_clocks]
    · split at h
      · cases h; simp [set_clocks]
      · have := upload_loop_spec m env _ _ _ _ _ u h
        simpa [set_clocks] using this

theorem init_clock_found (dev : Nat → Bool × Nat) (base : InitEnv) (fpgaid f : Nat)
    (m : cgpu_info) (s : modminer_fpga_state) (log : List Nat) (w : List Frame)
    (hfd : m.device_fd = Fd.valid) (hf1 : 1 ≤ f) (hf2 : f ≤ 115) (hu : usable dev f = true)
    (hno : ∀ g, f < g → g ≤ 115 → usable dev g = false) :
    ∃ o, modminer_fpga_init_clock m s fpgaid (device_env dev base) log w = some o ∧
      o.rv = true ∧ o.state.dclk.freqMaxM = f ∧ o.state.freqMaxMaxM = f ∧
      o.state.dclk.freqM = (if 100 < f ∧ (dev 100).1 = true then 100 else f) := by
  unfold modminer_fpga_init_clock
  obtain ⟨w1, hw1⟩ := calibration_found dev base fpgaid f m hfd hf1 hu 116 115
    (set_freqM { s with pdone := 101 } 116) w (by omega) rfl (by omega) hf2 hno
  have h116 : MODMINER_MAX_CLOCK / 2 + 1 = 116 := by decide
  simp only [h116]
  simp only [set_freqM] at hw1
  rw [hw1]
  simp only [Bool.not_true, Bool.false_eq_true, if_false]
  refine ⟨_, rfl, rfl, ?_⟩
  by_cases h100 : 100 < f
  · have hdef : MODMINER_DEF_CLOCK / 2 < f := by unfold MODMINER_DEF_CLOCK; omega
    have hclk : to_uchar ((f : Int) * 2 + to_schar (-((f : Int) * 2 - (MODMINER_DEF_CLOCK : Nat)))) = 200 := by
      unfold to_uchar to_schar MODMINER_DEF_CLOCK; push_cast; omega
    simp only [hdef, if_true, modminer_change_clock, port_reply, hfd, hclk, device_env]
    cases hd : (dev 100).1 <;> simp [hd, h100]
  · have hdef : ¬ MODMINER_DEF_CLOCK / 2 < f := by unfold MODMINER_DEF_CLOCK; omega
    simp [hdef, h100]

theorem init_clock_none (dev : Nat → Bool × Nat) (base : InitEnv) (fpgaid : Nat)
    (m : cgpu_info) (s : modminer_fpga_state) (log : List Nat) (w : List Frame)
    (hfd : m.device_fd = Fd.valid)
    (hno : ∀ g, 1 ≤ g → g ≤ 115 → usable dev g = false) :
    ∃ o, modminer_fpga_init_clock m s fpgaid (device_env dev base) log w = some o ∧
      o.rv = false ∧ set_clocks o.wire = set_clocks w ++ tried 115 := by
  unfold modminer_fpga_init_clock
  obtain ⟨c, hc, hrv, hw⟩ := calibration_none dev base fpgaid m hfd 116 115
    (set_freqM { s with pdone := 101 } 116) w (by omega) rfl (by omega) hno
  have h116 : MODMINER_MAX_CLOCK / 2 + 1 = 116 := by decide
  simp only [h116]
  simp only [set_freqM] at hc
  rw [hc]
  simp only [hrv, Bool.not_false, if_true]
  exact ⟨_, rfl, rfl, hw⟩

/-- On a programmed board the initialisation reaches the calibration search. -/
theorem init_reaches_clock (m : cgpu_info) (s : modminer_fpga_state) (fpgaid : Nat)
    (env : InitEnv) (hfd : m.device_fd = Fd.valid) (hprog : programmed m env) :
    ∃ s1 log1 w1, modminer_fpga_init m s fpgaid env =
        modminer_fpga_init_clock m s1 fpgaid env log1 w1 ∧ set_clocks w1 = [] := by
  obtain ⟨buf, hbuf, hcase⟩ := hprog
  unfold modminer_fpga_init
  simp only [hfd, port_reply, hbuf, if_true]
  by_cases hup : buf ≠ BISTREAM_USER_ID ∨ env.force_dev_init = true
  · rcases hcase with ⟨h1, h2⟩ | ⟨u, hu, hrv⟩
    · rcases hup with h | h
      · exact absurd h1 h
      · simp [h2] at h
    · obtain ⟨hm, hw⟩ := upload_bitstream_spec m env.upload u hu
      simp only [hup, hu, hrv, hm hrv]
      refine ⟨_, _, _, rfl, ?_⟩
      have := set_clocks_append [Frame.GET_USERCODE fpgaid] u.wire
      rw [hw] at this
      simpa [set_clocks] using this
  · simp only [hup]
    exact ⟨_, _, _, rfl, by simp [set_clocks]⟩

theorem usable_greatest (dev : Nat → Bool × Nat)
    (h : ∃ f, 1 ≤ f ∧ f ≤ 115 ∧ usable dev f = true) :
    ∃ F, 1 ≤ F ∧ F ≤ 115 ∧ usable dev F = true ∧ ∀ g, F < g → g ≤ 115 → usable dev g = false := by
  obtain ⟨f, hf1, hf2, hu⟩ := h
  let P : Nat → Prop := fun g => 1 ≤ g ∧ usable dev g = true
  have hP : P f := ⟨hf1, hu⟩
  have hspec := Nat.findGreatest_spec (P := P) hf2 hP
  refine ⟨Nat.findGreatest P 115, hspec.1, Nat.findGreatest_le 115, hspec.2, ?_⟩
  intro g hg1 hg2
  have := Nat.findGreatest_is_greatest (P := P) hg1 hg2
  by_contra hne
  exact this ⟨by omega, by simpa using hne⟩

/-- C3: calibration search of `modminer_fpga_init` on a device that answers by
the halved frequency with no I/O error.  If some `f` in
`[MODMINER_MIN_CLOCK / 2, MODMINER_MAX_CLOCK / 2]` is accepted with a
CHECK_WORK reply other than `00 ff ff ff`, the initialisation succeeds with
`freqMaxM = freqMaxMaxM` the greatest such `f` (and `freqM` stepped down to
`MODMINER_DEF_CLOCK / 2` when that is lower and accepted); if there is none
it fails after commanding the clocks 230, 228, ..., 2. -/
theorem calibration_search (dev : Nat → Bool × Nat) (base : InitEnv) (modminer : cgpu_info)
    (state : modminer_fpga_state) (fpgaid : Nat)
    (hfd : modminer.device_fd = Fd.valid) (hprog : programmed modminer base) :
    ((∃ f, MODMINER_MIN_CLOCK / 2 ≤ f ∧ f ≤ MODMINER_MAX_CLOCK / 2 ∧ usable dev f = true) →
      ∃ o, modminer_fpga_init modminer state fpgaid (device_env dev base) = some o ∧
        o.rv = true ∧ o.state.dclk.freqMaxM = o.state.freqMaxMaxM ∧
        MODMINER_MIN_CLOCK / 2 ≤ o.state.freqMaxMaxM ∧
        o.state.freqMaxMaxM ≤ MODMINER_MAX_CLOCK / 2 ∧
        usable dev o.state.freqMaxMaxM = true ∧
        (∀ g, g ≤ MODMINER_MAX_CLOCK / 2 → usable dev g = true → g ≤ o.state.freqMaxMaxM) ∧
        o.state.dclk.freqM =
          (if MODMINER_DEF_CLOCK / 2 < o.state.freqMaxMaxM ∧ (dev (MODMINER_DEF_CLOCK / 2)).1 = true
            then MODMINER_DEF_CLOCK / 2 else o.state.freqMaxMaxM)) ∧
    ((∀ f, MODMINER_MIN_CLOCK / 2 ≤ f → f ≤ MODMINER_MAX_CLOCK / 2 → usable dev f = false) →
      ∃ o, modminer_fpga_init modminer state fpgaid (device_env dev base) = some o ∧
        o.rv = false ∧ set_clocks o.wire = tried (MODMINER_MAX_CLOCK / 2)) := by
  have hmin : MODMINER_MIN_CLOCK / 2 = 1 := by decide
  have hmax : MODMINER_MAX_CLOCK / 2 = 115 := by decide
  have hdef : MODMINER_DEF_CLOCK / 2 = 100 := by decide
  rw [hmin, hmax, hdef]
  obtain ⟨s1, log1, w1, hinit, hw1⟩ :=
    init_reaches_clock modminer state fpgaid (device_env dev base) hfd hprog
  rw [hinit]
  constructor
  · intro hex
    obtain ⟨F, hF1, hF2, hFu, hFg⟩ := usable_greatest dev hex
    obtain ⟨o, ho, hrv, hmaxM, hmaxmax, hfreq⟩ :=
      init_clock_found dev base fpgaid F modminer s1 log1 w1 hfd hF1 hF2 hFu hFg
    refine ⟨o, ho, hrv, by rw [hmaxM, hmaxmax], by omega, by omega, by rw [hmaxmax]; exact hFu,
      ?_, by rw [hmaxmax]; exact hfreq⟩
    intro g hg hgu
    rw [hmaxmax]
    by_contra hlt
    have := hFg g (by omega) hg
    rw [this] at hgu
    exact Bool.false_ne_true hgu
  · intro hno
    obtain ⟨o, ho, hrv, hw⟩ := init_clock_none dev base fpgaid modminer s1 log1 w1 hfd hno
    exact ⟨o, ho, hrv, by rw [hw, hw1]; rfl⟩

theorem programmed_env_ok : programmed ⟨Fd.valid, 80, 0⟩ programmed_env :=
  ⟨BISTREAM_USER_ID, rfl, Or.inl ⟨rfl, rfl⟩⟩

/-- C3, witness: 230 rejected, 228 accepted with reply `ff ff ff ff` gives
`freqMaxMaxM = 114` and, after the step down, `freqM = 100`. -/
theorem calibration_search_witness :
    ∃ o, modminer_fpga_init ⟨Fd.valid, 80, 0⟩ (modminer_fpga_prepare 0) 0
        (device_env device_228 programmed_env) = some o ∧
      o.rv = true ∧ o.state.dclk.freqMaxM = 114 ∧ o.state.freqMaxMaxM = 114 ∧
      o.state.dclk.freqM = 100 := by
  obtain ⟨o, ho, hrv, h1, _, h3, h4, h5, h6⟩ :=
    (calibration_search device_228 programmed_env ⟨Fd.valid, 80, 0⟩ (modminer_fpga_prepare 0) 0
      rfl programmed_env_ok).1 ⟨114, by decide, by decide, by decide⟩
  have hmax : MODMINER_MAX_CLOCK / 2 = 115 := by decide
  have hge : 114 ≤ o.state.freqMaxMaxM := h5 114 (by decide) (by decide)
  have hne : o.state.freqMaxMaxM ≠ 115 := by
    intro h; rw [h] at h4; revert h4; decide
  have hF : o.state.freqMaxMaxM = 114 := by omega
  refine ⟨o, ho, hrv, by rw [h1, hF], hF, ?_⟩
  rw [h6, hF]; decide

/-! ## Clock changes and the thermal supervisor -/

/-- A clock change either leaves the record alone or replaces `dclk.freqM`. -/
theorem change_clock_cases (m : cgpu_info) (s : modminer_fpga_state) (fpgaid : Nat)
    (delta : Int) (sc : Nat → Option Nat) :
    ((modminer_change_clock m s fpgaid delta sc).rv = false ∧
      (modminer_change_clock m s fpgaid delta sc).state = s) ∨
    ((modminer_change_clock m s fpgaid delta sc).rv = true ∧
      (modminer_change_clock m s fpgaid delta sc).state =
        set_freqM s (to_uchar ((s.dclk.freqM : Int) * 2 + to_schar delta) / 2)) := by
  unfold modminer_change_clock
  simp only
  split
  · left; exact ⟨rfl, rfl⟩
  · split
    · right; exact ⟨rfl, rfl⟩
    · left; exact ⟨rfl, rfl⟩

theorem reduce_clock_cases (m : cgpu_info) (s : modminer_fpga_state) (fpgaid : Nat)
    (sc : Nat → Option Nat) :
    (modminer_reduce_clock m s fpgaid sc).state = s ∨
    (1 < s.dclk.freqM ∧ (modminer_reduce_clock m s fpgaid sc).state =
        set_freqM s (to_uchar ((s.dclk.freqM : Int) * 2 + to_schar (-2)) / 2)) := by
  unfold modminer_reduce_clock
  split
  · left; rfl
  · rename_i h
    have h1 : 1 < s.dclk.freqM := by
      have : MODMINER_MIN_CLOCK / 2 = 1 := by decide
      omega
    rcases change_clock_cases m s fpgaid (-2) sc with ⟨_, h2⟩ | ⟨_, h2⟩
    · left; exact h2
    · right; exact ⟨h1, h2⟩

/-- A thermal step calls `modminer_reduce_clock` only when the last throttle
was in another second, and then records the current second. -/
theorem get_temperature_cutoff (h : Int) (m : cgpu_info) (s : modminer_fpga_state)
    (fpgaid : Nat) (e : TempEnv) :
    ((modminer_get_temperature h m s fpgaid e).reduce_called = true →
      s.last_cutoff_reduced ≠ e.now ∧
      (modminer_get_temperature h m s fpgaid e).state.last_cutoff_reduced = e.now) ∧
    ((modminer_get_temperature h m s fpgaid e).reduce_called = false →
      (modminer_get_temperature h m s fpgaid e).state.last_cutoff_reduced =
        s.last_cutoff_reduced) := by
  unfold modminer_get_temperature
  split
  · simp
  · simp only
    split_ifs with h1 h2 h3 h4
    · simp only [true_and, Bool.true_eq_false, false_implies, and_true, forall_const]
      refine ⟨h2, ?_⟩
      rcases reduce_clock_cases m
        { s with temp := _, last_cutoff_reduced := e.now } fpgaid e.set_clock with hc | ⟨_, hc⟩
      · rw [hc]
      · rw [hc]; rfl
    · simp
    · simp
    · simp
    · simp

/-- Steps within one second call `modminer_reduce_clock` at most once, and
not at all when a throttle already fired in that second. -/
theorem thermal_steps_bound (h : Int) (fpgaid : Nat) (sec : Int) :
    ∀ (envs : List TempEnv) (m : cgpu_info) (s : modminer_fpga_state),
      (∀ e ∈ envs, e.now = sec) →
      reduce_calls (thermal_steps h fpgaid m s envs) ≤
        (if s.last_cutoff_reduced = sec then 0 else 1) := by
  intro envs
  induction envs with
  | nil => intro m s _; simp [thermal_steps, reduce_calls]
  | cons e es ih =>
    intro m s hall
    have he : e.now = sec := hall e (List.mem_cons_self _ _)
    have hes : ∀ x ∈ es, x.now = sec := fun x hx => hall x (List.mem_cons_of_mem _ hx)
    obtain ⟨hc1, hc2⟩ := get_temperature_cutoff h m s fpgaid e
    have hrest := ih (modminer_get_temperature h m s fpgaid e).modminer
      (modminer_get_temperature h m s fpgaid e).state hes
    have hgoal : reduce_calls (thermal_steps h fpgaid m s (e :: es)) =
        (if (modminer_get_temperature h m s fpgaid e).reduce_called = true then 1 else 0) +
        reduce_calls (thermal_steps h fpgaid (modminer_get_temperature h m s fpgaid e).modminer
          (modminer_get_temperature h m s fpgaid e).state es) := by
      simp only [thermal_steps, reduce_calls, List.filter_cons]
      split <;> simp [Nat.add_comm]
    rw [hgoal]
    cases hr : (modminer_get_temperature h m s fpgaid e).reduce_called
    · rw [hc2 hr] at hrest
      simpa using hrest
    · obtain ⟨hne, heq⟩ := hc1 hr
      rw [heq, he, if_pos rfl] at hrest
      rw [he] at hne
      rw [if_neg hne]
      simp only [if_true]
      omega



/-- C5 (amended): for one FPGA and any sequence of temperature readings
processed by `modminer_get_temperature` at wallclock times that lie in the same
whole second (`time(NULL)` equal), at most one reading triggers
`modminer_reduce_clock`. -/
theorem throttle_rate_limit (opt_hysteresis : Int) (fpgaid : Nat) (modminer : cgpu_info)
    (state : modminer_fpga_state) (sec : Nat) (rs : List (Nat × Nat × (Nat → Option Nat)))
    (hsec : ∀ r ∈ rs, r.1 / 1000 = sec) :
    reduce_calls (thermal_steps opt_hysteresis fpgaid modminer state (rs.map reading_at)) ≤ 1 := by
  have hb := thermal_steps_bound opt_hysteresis fpgaid (sec : Int) (rs.map reading_at)
    modminer state (by
      intro e he
      obtain ⟨r, hr, rfl⟩ := List.mem_map.1 he
      simp [reading_at, time_NULL, hsec r hr])
  split at hb <;> omega

/-- C5, witness: readings of 90 at 5.0 s, 5.3 s and 5.5 s with target 80 and
hysteresis 3 cause exactly one SET_CLOCK(198), and `freqMaxM` is clamped to 99. -/
theorem throttle_rate_limit_witness :
    (∀ r ∈ [(5000, 90, accepts), (5300, 90, accepts), (5500, 90, accepts)], r.1 / 1000 = 5) ∧
    reduce_calls (thermal_steps 3 0 ⟨Fd.valid, 80, 0⟩ state_100
      ([(5000, 90, accepts), (5300, 90, accepts), (5500, 90, accepts)].map reading_at)) ≤ 1 ∧
    ((thermal_steps 3 0 ⟨Fd.valid, 80, 0⟩ state_100
      ([(5000, 90, accepts), (5300, 90, accepts), (5500, 90, accepts)].map reading_at)).map
        (fun o => (set_clocks o.wire, o.state.dclk.freqM, o.state.dclk.freqMaxM))) =
      [([198], 99, 99), ([], 99, 99), ([], 99, 99)] :=
  ⟨by simp, throttle_rate_limit 3 0 ⟨Fd.valid, 80, 0⟩ state_100 5 _ (by simp), by decide⟩

/-- C5, counterexample: two overheat readings 0.2 s apart, at 1.9 s and 2.1 s,
both trigger `modminer_reduce_clock` (SET_CLOCK 198, then SET_CLOCK 196). -/
theorem throttle_straddles_second :
    2100 - 1900 < 1000 ∧
    ((thermal_steps 3 0 ⟨Fd.valid, 80, 0⟩ state_100
      ([(1900, 90, accepts), (2100, 90, accepts)].map reading_at)).map
        (fun o => (o.reduce_called, set_clocks o.wire))) = [(true, [198]), (true, [196])] := by
  decide

/-- C4: the code at the TEMP1 reply byte 200 with target 80, hysteresis 3,
`freqM = 100`, no throttle in the current second and a device that accepts:
`state.temp` is 200, which exceeds 83, yet no SET_CLOCK is issued and the clock
fields stay as they were. -/
theorem overheat_byte_200 :
    (modminer_get_temperature 3 ⟨Fd.valid, 80, 0⟩ state_100 0 ⟨some 200, 1, accepts⟩).state.temp = 200 ∧
    ((200 : Int) > 80 + 3 ∧ state_100.last_cutoff_reduced ≠ 1 ∧
      state_100.dclk.freqM > MODMINER_MIN_CLOCK / 2) ∧
    (modminer_get_temperature 3 ⟨Fd.valid, 80, 0⟩ state_100 0 ⟨some 200, 1, accepts⟩).wire
      = [Frame.TEMP1 0] ∧
    (modminer_get_temperature 3 ⟨Fd.valid, 80, 0⟩ state_100 0 ⟨some 200, 1, accepts⟩).state.dclk
      = ⟨100, 114, 100⟩ := by
  decide

/-- The overheat step for reply bytes up to 127, where the signed `char`
holds the byte's value. -/
theorem overheat_step_below_128 (h : Int) (m : cgpu_info) (s : modminer_fpga_state)
    (fpgaid : Nat) (e : TempEnv) (T r : Nat)
    (hfd : m.device_fd = Fd.valid) (hT : e.temperature = some T) (hT127 : T ≤ 127)
    (hhot : (T : Int) > m.targettemp + h) (hsec : s.last_cutoff_reduced ≠ e.now)
    (hmin : MODMINER_MIN_CLOCK / 2 < s.dclk.freqM) (hmax : s.dclk.freqM ≤ 128)
    (hacc : e.set_clock (2 * (s.dclk.freqM - 1)) = some r) (hr : r % 256 ≠ 0) :
    (modminer_get_temperature h m s fpgaid e).wire =
      [Frame.TEMP1 fpgaid, Frame.SET_CLOCK fpgaid (2 * (s.dclk.freqM - 1))] ∧
    (modminer_get_temperature h m s fpgaid e).state.dclk.freqM = s.dclk.freqM - 1 ∧
    (modminer_get_temperature h m s fpgaid e).state.dclk.freqMaxM = s.dclk.freqM - 1 ∧
    (modminer_get_temperature h m s fpgaid e).state.temp = T := by
  have hmin1 : MODMINER_MIN_CLOCK / 2 = 1 := by decide
  rw [hmin1] at hmin
  have hcv : char_value T = T := by unfold char_value to_schar; omega
  have hclk : to_uchar ((s.dclk.freqM : Int) * 2 + to_schar (-2)) = 2 * (s.dclk.freqM - 1) := by
    unfold to_uchar to_schar; omega
  have hnot : ¬ (s.dclk.freqM ≤ MODMINER_MIN_CLOCK / 2) := by rw [hmin1]; omega
  have htemp : to_uchar (T : Int) = T := by unfold to_uchar; omega
  have hhalf : 2 * (s.dclk.freqM - 1) / 2 = s.dclk.freqM - 1 := by omega
  simp [modminer_get_temperature, port_reply, hfd, hT, hcv, hhot, hsec, modminer_reduce_clock,
    hnot, modminer_change_clock, hclk, hacc, hr, htemp, hhalf]

/-! ## Hash crediting -/

/-- C2: the code on the replies 0x0202, 0x0101 in one call, where the first
passes `test_nonce` only for `last_work` and the second only for
`running_work`: the second nonce is not submitted, and it is counted in
`bad_share_counter` and both hardware-error counters. -/
theorem nonce_after_last_work :
    (test_nonce_tag state_hashing.running_work 0x0202 = false ∧
     test_nonce_tag state_hashing.last_work 0x0202 = true ∧
     test_nonce_tag state_hashing.running_work 0x0101 = true) ∧
    (modminer_process_results test_nonce_tag 3 ⟨Fd.valid, 80, 0⟩ state_hashing 0 0
      (results_env [0x0202, 0x0101])).submitted = [(WorkSel.last_work, 0x0202)] ∧
    (modminer_process_results test_nonce_tag 3 ⟨Fd.valid, 80, 0⟩ state_hashing 0 0
      (results_env [0x0202, 0x0101])).state.good_share_counter = 1 ∧
    (modminer_process_results test_nonce_tag 3 ⟨Fd.valid, 80, 0⟩ state_hashing 0 0
      (results_env [0x0202, 0x0101])).state.bad_share_counter = 1 ∧
    (modminer_process_results test_nonce_tag 3 ⟨Fd.valid, 80, 0⟩ state_hashing 0 0
      (results_env [0x0202, 0x0101])).hw_errors = 1 ∧
    (modminer_process_results test_nonce_tag 3 ⟨Fd.valid, 80, 0⟩ state_hashing 0 0
      (results_env [0x0202, 0x0101])).modminer.hw_errors = 1 := by
  decide

/-- While `work` points to `running_work`, a nonce is classified as the two
tests say. -/
theorem process_nonce_running (test_nonce : work → Nat → Bool) (p : PollState) (nonce : Nat)
    (hw : p.work = WorkSel.running_work) (hn : nonce < 2 ^ 32) (hnone : nonce ≠ NONCE_NONE) :
    (test_nonce p.state.running_work nonce = true →
      (process_nonce test_nonce p nonce).submitted =
        p.submitted ++ [(WorkSel.running_work, nonce)] ∧
      (process_nonce test_nonce p nonce).state.good_share_counter =
        p.state.good_share_counter + 1 ∧
      (process_nonce test_nonce p nonce).state.bad_share_counter = p.state.bad_share_counter) ∧
    (test_nonce p.state.running_work nonce = false → test_nonce p.state.last_work nonce = true →
      (process_nonce test_nonce p nonce).submitted =
        p.submitted ++ [(WorkSel.last_work, nonce)] ∧
      (process_nonce test_nonce p nonce).state.good_share_counter =
        p.state.good_share_counter + 1 ∧
      (process_nonce test_nonce p nonce).state.bad_share_counter = p.state.bad_share_counter) ∧
    (test_nonce p.state.running_work nonce = false → test_nonce p.state.last_work nonce = false →
      (process_nonce test_nonce p nonce).submitted = p.submitted ∧
      (process_nonce test_nonce p nonce).state.good_share_counter = p.state.good_share_counter ∧
      (process_nonce test_nonce p nonce).state.bad_share_counter =
        p.state.bad_share_counter + 1 ∧
      (process_nonce test_nonce p nonce).hw_errors = p.hw_errors + 1 ∧
      (process_nonce test_nonce p nonce).modminer.hw_errors = p.modminer.hw_errors + 1) := by
  have hmod : nonce % 4294967296 = nonce := Nat.mod_eq_of_lt (by simpa using hn)
  refine ⟨?_, ?_, ?_⟩
  · intro h1
    simp [process_nonce, deref_work, hw, h1, hmod, hnone]
  · intro h1 h2
    simp [process_nonce, deref_work, hw, h1, h2, hmod, hnone]
  · intro h1 h2
    simp [process_nonce, deref_work, hw, h1, h2, hmod, hnone]

/-! ## Work pipeline -/

theorem same_works_refl (s : modminer_fpga_state) : same_works s s := ⟨rfl, rfl, rfl⟩

theorem same_works_trans {a b c : modminer_fpga_state} (h1 : same_works a b)
    (h2 : same_works b c) : same_works a c :=
  ⟨h2.1.trans h1.1, h2.2.1.trans h1.2.1, h2.2.2.trans h1.2.2⟩

theorem send_works_append (a b : List Frame) :
    send_works (a ++ b) = send_works a ++ send_works b := by
  simp [send_works, List.filterMap_append]

/-- A clock change sends no SEND_WORK and keeps the staged frame and the
retained work units. -/
theorem change_clock_works (m : cgpu_info) (s : modminer_fpga_state) (fpgaid : Nat)
    (delta : Int) (sc : Nat → Option Nat) :
    same_works s (modminer_change_clock m s fpgaid delta sc).state ∧
    send_works (modminer_change_clock m s fpgaid delta sc).wire = [] := by
  constructor
  · rcases change_clock_cases m s fpgaid delta sc with ⟨_, h⟩ | ⟨_, h⟩ <;> rw [h]
    · exact same_works_refl s
    · exact ⟨rfl, rfl, rfl⟩
  · unfold modminer_change_clock
    simp only
    split
    · rfl
    · split <;> rfl

theorem reduce_clock_works (m : cgpu_info) (s : modminer_fpga_state) (fpgaid : Nat)
    (sc : Nat → Option Nat) :
    same_works s (modminer_reduce_clock m s fpgaid sc).state ∧
    send_works (modminer_reduce_clock m s fpgaid sc).wire = [] := by
  unfold modminer_reduce_clock
  split
  · exact ⟨same_works_refl s, rfl⟩
  · exact change_clock_works m s fpgaid (-2) sc

theorem get_temperature_works (h : Int) (m : cgpu_info) (s : modminer_fpga_state)
    (fpgaid : Nat) (e : TempEnv) :
    same_works s (modminer_get_temperature h m s fpgaid e).state ∧
    send_works (modminer_get_temperature h m s fpgaid e).wire = [] := by
  unfold modminer_get_temperature
  split
  · exact ⟨same_works_refl s, rfl⟩
  · rename_i b hb
    simp only
    split_ifs
    · obtain ⟨h1, h2⟩ := reduce_clock_works m
        { s with temp := to_uchar (char_value b), last_cutoff_reduced := e.now } fpgaid e.set_clock
      refine ⟨⟨h1.1, h1.2.1, h1.2.2⟩, ?_⟩
      have := send_works_append [Frame.TEMP1 fpgaid] (modminer_reduce_clock m
        { s with temp := to_uchar (char_value b), last_cutoff_reduced := e.now } fpgaid
          e.set_clock).wire
      rw [h2] at this
      simpa [send_works] using this
    all_goals exact ⟨⟨rfl, rfl, rfl⟩, rfl⟩

theorem process_nonce_works (test_nonce : work → Nat → Bool) (p : PollState) (nonce : Nat) :
    same_works p.state (process_nonce test_nonce p nonce).state ∧
    (process_nonce test_nonce p nonce).wire = p.wire ∧
    (process_nonce test_nonce p nonce).modminer.device_fd = p.modminer.device_fd := by
  unfold process_nonce
  simp only
  split_ifs <;> exact ⟨⟨rfl, rfl, rfl⟩, rfl, rfl⟩

theorem poll_loop_works (test_nonce : work → Nat → Bool) (fpgaid : Nat)
    (poll : Nat → PollEvent) :
    ∀ (iter i : Nat) (p : PollState),
      same_works p.state (poll_loop test_nonce fpgaid poll iter i p).2.state ∧
      send_works (poll_loop test_nonce fpgaid poll iter i p).2.wire = send_works p.wire ∧
      (poll_loop test_nonce fpgaid poll iter i p).2.modminer.device_fd = p.modminer.device_fd := by
  intro iter
  induction iter with
  | zero => intro i p; exact ⟨same_works_refl _, rfl, rfl⟩
  | succ iter ih =>
    intro i p
    unfold poll_loop
    simp only [_modminer_get_nonce]
    split
    · exact ⟨same_works_refl _, by simp [send_works_append, send_works], rfl⟩
    · rename_i nonce hn
      obtain ⟨g1, g2, g3⟩ := process_nonce_works test_nonce
        { p with wire := p.wire ++ [Frame.CHECK_WORK fpgaid] } nonce
      have g2s : send_works (process_nonce test_nonce
          { p with wire := p.wire ++ [Frame.CHECK_WORK fpgaid] } nonce).wire = send_works p.wire := by
        rw [g2]; simp [send_works_append, send_works]
      split_ifs
      · exact ⟨g1, g2s, g3⟩
      · exact ⟨g1, g2s, g3⟩
      · obtain ⟨k1, k2, k3⟩ := ih (i + 1) (process_nonce test_nonce
          { p with wire := p.wire ++ [Frame.CHECK_WORK fpgaid] } nonce)
        exact ⟨same_works_trans g1 k1, k2.trans g2s, k3.trans g3⟩

/-- A call of `modminer_process_results` sends no SEND_WORK and keeps the staged
frame and the retained work units. -/
theorem process_results_works (test_nonce : work → Nat → Bool) (h : Int) (m : cgpu_info)
    (s : modminer_fpga_state) (hw : Nat) (fpgaid : Nat) (env : ResultsEnv) :
    same_works s (modminer_process_results test_nonce h m s hw fpgaid env).state ∧
    send_works (modminer_process_results test_nonce h m s hw fpgaid env).wire = [] := by
  obtain ⟨t1, t2⟩ := get_temperature_works h m s fpgaid env.temp
  obtain ⟨l1, l2, _⟩ := poll_loop_works test_nonce fpgaid env.poll 200 0
    ⟨(modminer_get_temperature h m s fpgaid env.temp).modminer,
     (modminer_get_temperature h m s fpgaid env.temp).state, hw, WorkSel.running_work, 0, 0, [],
     (modminer_get_temperature h m s fpgaid env.temp).wire⟩
  simp only at l1 l2
  rw [t2] at l2
  have l1s := same_works_trans t1 l1
  unfold modminer_process_results
  simp only
  generalize poll_loop test_nonce fpgaid env.poll 200 0
    ⟨(modminer_get_temperature h m s fpgaid env.temp).modminer,
     (modminer_get_temperature h m s fpgaid env.temp).state, hw, WorkSel.running_work, 0, 0, [],
     (modminer_get_temperature h m s fpgaid env.temp).wire⟩ = L at l1 l2 l1s ⊢
  obtain ⟨ok, p⟩ := L
  simp only at l1s l2
  cases ok
  · simp only [Bool.not_false, if_true]
    exact ⟨⟨l1s.1, l1s.2.1, l1s.2.2⟩, l2⟩
  · simp only [Bool.not_true, Bool.false_eq_true, if_false]
    unfold dclk_updateFreq
    split
    · exact ⟨⟨l1s.1, l1s.2.1, l1s.2.2⟩, by rw [send_works_append, l2]; rfl⟩
    · rename_i mult _
      unfold modminer_dclk_change_clock
      simp only
      obtain ⟨c1, c2⟩ := change_clock_works p.modminer
        { p.state with hashes := (hashes_credit p.state.dclk.freqM
            ((env.tv_workend - p.state.tv_workstart) % 2 ^ 64).toNat p.state.hashes).2 }
        fpgaid (to_schar ((mult - (p.state.dclk.freqM : Int)) * 2)) env.set_clock
      refine ⟨⟨c1.1.trans l1s.1, c1.2.1.trans l1s.2.1, c1.2.2.trans l1s.2.2⟩, ?_⟩
      rw [send_works_append, l2, c2]; rfl


theorem take_44_split (l A B : List Nat) (hl : 32 ≤ l.length) (hA : A.length = 32) :
    l.take 44 = A ++ B ↔ l.take 32 = A ∧ (l.drop 32).take 12 = B := by
  have h44 : l.take 44 = l.take 32 ++ (l.drop 32).take 12 := by
    rw [show (44 : Nat) = 32 + 12 from rfl, List.take_add]
  rw [h44]
  constructor
  · intro h
    exact List.append_inj h (by simp [hA]; omega)
  · rintro ⟨h1, h2⟩
    rw [h1, h2]

/-- The comparison made by `modminer_prepare_next_work`. -/
theorem prepare_false_iff (s : modminer_fpga_state) (w : work) :
    (modminer_prepare_next_work s w).1 = false ↔
      ((s.next_work_cmd.drop 2).take 32 = w.midstate.take 32 ∧
       ((s.next_work_cmd.drop 2).drop 32).take 12 = (w.data.drop 64).take 12) := by
  unfold modminer_prepare_next_work bytes_eq
  simp only
  split_ifs with h
  · simp at h
    simp [h]
  · simp at h
    simp only [Bool.true_eq_false, false_iff, not_and]
    simpa using h

theorem prepare_false_state (s : modminer_fpga_state) (w : work)
    (h : (modminer_prepare_next_work s w).1 = false) : (modminer_prepare_next_work s w).2 = s := by
  unfold modminer_prepare_next_work at h ⊢
  simp only at h ⊢
  split_ifs at h ⊢ with h1
  · rfl

/-- After `modminer_prepare_next_work` the frame holds the work's 44 bytes
behind its first two bytes. -/
theorem prepare_staged (s : modminer_fpga_state) (w : work)
    (hcmd : s.next_work_cmd.length = 46) (hmid : w.midstate.length = 32)
    (hdata : 76 ≤ w.data.length) :
    ((modminer_prepare_next_work s w).2.next_work_cmd.drop 2).take 32 = w.midstate.take 32 ∧
    (((modminer_prepare_next_work s w).2.next_work_cmd.drop 2).drop 32).take 12 =
      (w.data.drop 64).take 12 ∧
    (modminer_prepare_next_work s w).2.next_work_cmd.take 2 = s.next_work_cmd.take 2 ∧
    (modminer_prepare_next_work s w).2.next_work_cmd.length = 46 := by
  by_cases h : (modminer_prepare_next_work s w).1 = false
  · rw [prepare_false_state s w h]
    exact ⟨((prepare_false_iff s w).1 h).1, ((prepare_false_iff s w).1 h).2, rfl, hcmd⟩
  · have hnew : (modminer_prepare_next_work s w).2.next_work_cmd =
        s.next_work_cmd.take 2 ++ (w.midstate.take 32 ++ ((w.data.drop 64).take 12 ++
          s.next_work_cmd.drop 46)) := by
      unfold modminer_prepare_next_work at h ⊢
      simp only at h ⊢
      split_ifs at h ⊢ with h1
      · simp at h
      · simp
    have l2 : (s.next_work_cmd.take 2).length = 2 := by simp [hcmd]
    have l32 : (w.midstate.take 32).length = 32 := by simp [hmid]
    have l12 : ((w.data.drop 64).take 12).length = 12 := by simp; omega
    have ld : s.next_work_cmd.drop 46 = [] := by
      apply List.drop_eq_nil_of_le; omega
    rw [hnew, ld]
    refine ⟨?_, ?_, ?_, ?_⟩
    · rw [List.drop_left' l2, List.take_left' l32]
    · rw [List.drop_left' l2, List.drop_left' l32]
      simp
    · rw [List.take_left' l2]
    · simp [l2, l32, l12, hmid, hcmd]


theorem start_work_cmd (m : cgpu_info) (s : modminer_fpga_state) (env : StartEnv) :
    (modminer_start_work m s env).state.next_work_cmd = s.next_work_cmd := by
  unfold modminer_start_work
  simp only
  split_ifs <;> rfl

theorem scanhash_staged (test_nonce : work → Nat → Bool) (h : Int) (m : cgpu_info)
    (s : modminer_fpga_state) (hw : Nat) (fpgaid : Nat) (w : work) (env : ScanEnv) :
    (modminer_scanhash test_nonce h m s hw fpgaid w env).state.next_work_cmd =
      (modminer_prepare_next_work s w).2.next_work_cmd := by
  unfold modminer_scanhash
  simp only
  split_ifs
  · rw [start_work_cmd]
  · rw [start_work_cmd]
  · exact (process_results_works test_nonce h m _ hw fpgaid env.results).1.1
  · exact (process_results_works test_nonce h m _ hw fpgaid env.results).1.1
  · rfl

theorem scanhash_not_starting (test_nonce : work → Nat → Bool) (h : Int) (m : cgpu_info)
    (s : modminer_fpga_state) (hw : Nat) (fpgaid : Nat) (w : work) (env : ScanEnv)
    (hp : (modminer_prepare_next_work s w).1 = false) :
    send_works (modminer_scanhash test_nonce h m s hw fpgaid w env).wire = [] ∧
    same_works s (modminer_scanhash test_nonce h m s hw fpgaid w env).state := by
  have hs := prepare_false_state s w hp
  unfold modminer_scanhash
  simp only [hp, hs, Bool.false_eq_true, if_false]
  obtain ⟨p1, p2⟩ := process_results_works test_nonce h m s hw fpgaid env.results
  split_ifs
  · exact ⟨p2, ⟨p1.1, p1.2.1, p1.2.2⟩⟩
  · exact ⟨p2, p1⟩
  · exact ⟨rfl, ⟨rfl, rfl, rfl⟩⟩

/-- C7: for every FPGA state and work unit `w`, a `modminer_scanhash` that
follows a `modminer_scanhash` of `w` and is offered a work unit with the same
midstate (32 bytes) and `data[64..76]` (12 bytes) issues no SEND_WORK and
leaves `next_work_cmd`, `running_work` and `last_work` unchanged;
`modminer_prepare_next_work` returns true on the first call exactly when the
staged 44 bytes differ from those of `w`, returns false on the repeated call,
and never touches the opcode and FPGA-id bytes of `next_work_cmd`. -/
theorem same_work_twice (test_nonce : work → Nat → Bool) (opt_hysteresis : Int)
    (modminer : cgpu_info) (state : modminer_fpga_state) (hw_errors fpgaid : Nat)
    (w w2 : work) (env1 env2 : ScanEnv)
    (hcmd : state.next_work_cmd.length = 46) (hmid : w.midstate.length = 32)
    (hdata : 76 ≤ w.data.length)
    (hmid2 : w2.midstate.take 32 = w.midstate.take 32)
    (htail2 : (w2.data.drop 64).take 12 = (w.data.drop 64).take 12) :
    (send_works (modminer_scanhash test_nonce opt_hysteresis
        (modminer_scanhash test_nonce opt_hysteresis modminer state hw_errors fpgaid w env1).modminer
        (modminer_scanhash test_nonce opt_hysteresis modminer state hw_errors fpgaid w env1).state
        (modminer_scanhash test_nonce opt_hysteresis modminer state hw_errors fpgaid w env1).hw_errors
        fpgaid w2 env2).wire = [] ∧
     same_works
      (modminer_scanhash test_nonce opt_hysteresis modminer state hw_errors fpgaid w env1).state
      (modminer_scanhash test_nonce opt_hysteresis
        (modminer_scanhash test_nonce opt_hysteresis modminer state hw_errors fpgaid w env1).modminer
        (modminer_scanhash test_nonce opt_hysteresis modminer state hw_errors fpgaid w env1).state
        (modminer_scanhash test_nonce opt_hysteresis modminer state hw_errors fpgaid w env1).hw_errors
        fpgaid w2 env2).state) ∧
    ((modminer_prepare_next_work state w).1 = true ↔
      (state.next_work_cmd.drop 2).take 44 ≠ w.midstate.take 32 ++ (w.data.drop 64).take 12) ∧
    (modminer_prepare_next_work (modminer_prepare_next_work state w).2 w2).1 = false ∧
    (modminer_prepare_next_work state w).2.next_work_cmd.take 2 = state.next_work_cmd.take 2 := by
  obtain ⟨g1, g2, g3, g4⟩ := prepare_staged state w hcmd hmid hdata
  have hrep : ∀ s1 : modminer_fpga_state,
      s1.next_work_cmd = (modminer_prepare_next_work state w).2.next_work_cmd →
      (modminer_prepare_next_work s1 w2).1 = false := by
    intro s1 hs1
    rw [prepare_false_iff, hs1, hmid2, htail2]
    exact ⟨g1, g2⟩
  refine ⟨?_, ?_, hrep _ rfl, g3⟩
  · exact scanhash_not_starting test_nonce opt_hysteresis _ _ _ fpgaid w2 env2
      (hrep _ (scanhash_staged test_nonce opt_hysteresis modminer state hw_errors fpgaid w env1))
  · have hlen : 32 ≤ (state.next_work_cmd.drop 2).length := by simp [hcmd]
    have hA : (w.midstate.take 32).length = 32 := by simp [hmid]
    rw [Ne, take_44_split _ _ _ hlen hA, ← prepare_false_iff]
    cases (modminer_prepare_next_work state w).1 <;> simp

/-- C7, witness: a new work unit is staged and sent in one SEND_WORK; offering
it again sends none. -/
theorem same_work_twice_witness :
    (send_works (modminer_scanhash test_nonce_tag 3
        (modminer_scanhash test_nonce_tag 3 ⟨Fd.valid, 80, 0⟩ state_100 0 0 (work_of 7)
          quiet_scan).modminer
        (modminer_scanhash test_nonce_tag 3 ⟨Fd.valid, 80, 0⟩ state_100 0 0 (work_of 7)
          quiet_scan).state
        (modminer_scanhash test_nonce_tag 3 ⟨Fd.valid, 80, 0⟩ state_100 0 0 (work_of 7)
          quiet_scan).hw_errors
        0 (work_of 7) quiet_scan).wire = [] ∧
     same_works
      (modminer_scanhash test_nonce_tag 3 ⟨Fd.valid, 80, 0⟩ state_100 0 0 (work_of 7)
          quiet_scan).state
      (modminer_scanhash test_nonce_tag 3
        (modminer_scanhash test_nonce_tag 3 ⟨Fd.valid, 80, 0⟩ state_100 0 0 (work_of 7)
          quiet_scan).modminer
        (modminer_scanhash test_nonce_tag 3 ⟨Fd.valid, 80, 0⟩ state_100 0 0 (work_of 7)
          quiet_scan).state
        (modminer_scanhash test_nonce_tag 3 ⟨Fd.valid, 80, 0⟩ state_100 0 0 (work_of 7)
          quiet_scan).hw_errors
        0 (work_of 7) quiet_scan).state) ∧
    send_works (modminer_scanhash test_nonce_tag 3 ⟨Fd.valid, 80, 0⟩ state_100 0 0 (work_of 7)
          quiet_scan).wire =
      [8 :: 0 :: List.replicate 44 7] :=
  ⟨(same_work_twice test_nonce_tag 3 ⟨Fd.valid, 80, 0⟩ state_100 0 0 (work_of 7) (work_of 7)
      quiet_scan
      quiet_scan
      (by decide) (by decide) (by decide) rfl rfl).1, by decide⟩

/-! ## Transient I/O failures -/

/-- The polling loop reports the failure of a CHECK_WORK it gets to. -/
theorem poll_loop_fails (test_nonce : work → Nat → Bool) (fpgaid : Nat)
    (poll : Nat → PollEvent) (i : Nat) (hi : (poll i).reply = none) :
    ∀ (iter i0 : Nat) (p : PollState), i0 ≤ i → i < i0 + iter →
      (∀ j, i0 ≤ j → j < i → (poll j).restart_after_reply = false ∧
        (poll j).restart_after_sleep = false) →
      (poll_loop test_nonce fpgaid poll iter i0 p).1 = false := by
  intro iter
  induction iter with
  | zero => intro i0 p h1 h2; omega
  | succ iter ih =>
    intro i0 p h1 h2 hok
    unfold poll_loop
    simp only [_modminer_get_nonce]
    split
    · rfl
    · rename_i nonce hn
      have hne : i0 ≠ i := by
        intro h
        subst h
        rw [hi] at hn
        unfold port_reply at hn
        split_ifs at hn
      obtain ⟨r1, r2⟩ := hok i0 (le_refl _) (by omega)
      have hiter : iter ≠ 0 := by omega
      simp only [r1, r2, hiter, decide_False, Bool.or_self, Bool.false_eq_true, if_false]
      exact ih (i0 + 1) _ (by omega) (by omega) (fun j hj1 hj2 => hok j (by omega) hj2)

/-- C8 (amended): for every FPGA state with `work_running = true` and a
re-offered (unchanged) work unit, if a CHECK_WORK write or 4-byte read fails
inside `modminer_process_results`, then a port reopen is attempted,
`work_running` becomes false, and `modminer_scanhash` returns 0 when the reopen
succeeds and -1 when it fails. -/
theorem transient_recovery (test_nonce : work → Nat → Bool) (opt_hysteresis : Int)
    (modminer : cgpu_info) (state : modminer_fpga_state) (hw_errors fpgaid : Nat)
    (w : work) (env : ScanEnv) (i : Nat)
    (hrun : state.work_running = true)
    (hsame : (modminer_prepare_next_work state w).1 = false)
    (hfail : check_work_fails env.results.poll i) :
    (modminer_scanhash test_nonce opt_hysteresis modminer state hw_errors fpgaid w env).reopen_called
      = true ∧
    (modminer_scanhash test_nonce opt_hysteresis modminer state hw_errors fpgaid w env).state.work_running
      = false ∧
    (modminer_scanhash test_nonce opt_hysteresis modminer state hw_errors fpgaid w env).rv
      = (if env.results.serial_ok = true then 0 else -1) := by
  obtain ⟨hi200, hnone, hok⟩ := hfail
  have hloop := poll_loop_fails test_nonce fpgaid env.results.poll i hnone 200 0
    ⟨(modminer_get_temperature opt_hysteresis modminer state fpgaid env.results.temp).modminer,
     (modminer_get_temperature opt_hysteresis modminer state fpgaid env.results.temp).state,
     hw_errors, WorkSel.running_work, 0, 0, [],
     (modminer_get_temperature opt_hysteresis modminer state fpgaid env.results.temp).wire⟩
    (Nat.zero_le _) (by omega) (fun j _ hj => (hok j hj).2)
  have hs := prepare_false_state state w hsame
  unfold modminer_scanhash
  simp only [hsame, hs, hrun, Bool.false_eq_true, if_false, if_true]
  unfold modminer_process_results
  simp only [hloop, Bool.not_false, if_true]
  unfold modminer_reopen
  cases env.results.serial_ok <;> cases env.restart <;> simp <;> split_ifs <;> simp




theorem check_work_fails_first (serial_ok : Bool) :
    check_work_fails (failing_scan serial_ok).results.poll 0 :=
  ⟨by decide, rfl, fun j hj => absurd hj (Nat.not_lt_zero j)⟩

/-- C8, witness: the first CHECK_WORK fails and the port cannot be reopened. -/
theorem transient_recovery_witness :
    state_hashing.work_running = true ∧
    (modminer_prepare_next_work state_hashing (work_of 1)).1 = false ∧
    (modminer_scanhash test_nonce_tag 3 ⟨Fd.valid, 80, 0⟩ state_hashing 0 0 (work_of 1)
      (failing_scan false)).reopen_called = true ∧
    (modminer_scanhash test_nonce_tag 3 ⟨Fd.valid, 80, 0⟩ state_hashing 0 0 (work_of 1)
      (failing_scan false)).state.work_running = false ∧
    (modminer_scanhash test_nonce_tag 3 ⟨Fd.valid, 80, 0⟩ state_hashing 0 0 (work_of 1)
      (failing_scan false)).rv = -1 :=
  ⟨rfl, by decide,
    transient_recovery test_nonce_tag 3 ⟨Fd.valid, 80, 0⟩ state_hashing 0 0 (work_of 1)
      (failing_scan false) 0 rfl (by decide) (check_work_fails_first false)⟩

/-- C8, counterexample: the first CHECK_WORK fails and the reopen succeeds;
`modminer_scanhash` returns 0, not -1. -/
theorem transient_recovery_reopened :
    state_hashing.work_running = true ∧
    (modminer_prepare_next_work state_hashing (work_of 1)).1 = false ∧
    (modminer_scanhash test_nonce_tag 3 ⟨Fd.valid, 80, 0⟩ state_hashing 0 0 (work_of 1)
      (failing_scan true)).wire = [Frame.TEMP1 0, Frame.CHECK_WORK 0] ∧
    (modminer_scanhash test_nonce_tag 3 ⟨Fd.valid, 80, 0⟩ state_hashing 0 0 (work_of 1)
      (failing_scan true)).reopen_called = true ∧
    (modminer_scanhash test_nonce_tag 3 ⟨Fd.valid, 80, 0⟩ state_hashing 0 0 (work_of 1)
      (failing_scan true)).state.work_running = false ∧
    (modminer_scanhash test_nonce_tag 3 ⟨Fd.valid, 80, 0⟩ state_hashing 0 0 (work_of 1)
      (failing_scan true)).rv = 0 := by
  decide

/-! ## Runtime clock override -/

/-- The clock byte `modminer_change_clock` computes from a delta towards the
multiplier `m`. -/
theorem clk_towards (freqM : Nat) (m : Int) :
    to_uchar ((freqM : Int) * 2 + to_schar (to_schar ((m - (freqM : Int)) * 2))) =
      to_uchar (m * 2) := by
  unfold to_uchar to_schar; omega

/-- The clock change of one FPGA in `modminer_set_device`. -/
theorem set_device_change (m : cgpu_info) (s : modminer_fpga_state) (i : Nat) (mult : Int)
    (sc : Nat → Nat → Option Nat) :
    (modminer_change_clock m (set_freqMDefault s (to_uchar mult)) i
        (to_schar ((mult - (s.dclk.freqM : Int)) * 2)) (sc i)).wire =
      [Frame.SET_CLOCK i (to_uchar (mult * 2))] ∧
    (modminer_change_clock m (set_freqMDefault s (to_uchar mult)) i
        (to_schar ((mult - (s.dclk.freqM : Int)) * 2)) (sc i)).rv =
      accepted m.device_fd sc i (to_uchar (mult * 2)) ∧
    (accepted m.device_fd sc i (to_uchar (mult * 2)) = true →
      (modminer_change_clock m (set_freqMDefault s (to_uchar mult)) i
        (to_schar ((mult - (s.dclk.freqM : Int)) * 2)) (sc i)).modminer = m ∧
      (modminer_change_clock m (set_freqMDefault s (to_uchar mult)) i
        (to_schar ((mult - (s.dclk.freqM : Int)) * 2)) (sc i)).state =
        set_freqM (set_freqMDefault s (to_uchar mult)) (to_uchar (mult * 2) / 2)) ∧
    (accepted m.device_fd sc i (to_uchar (mult * 2)) = false →
      (modminer_change_clock m (set_freqMDefault s (to_uchar mult)) i
        (to_schar ((mult - (s.dclk.freqM : Int)) * 2)) (sc i)).state =
        set_freqMDefault s (to_uchar mult)) := by
  have hclk := clk_towards s.dclk.freqM mult
  unfold modminer_change_clock accepted
  simp only [set_freqMDefault, hclk]
  cases hp : port_reply m.device_fd (sc i (to_uchar (mult * 2))) with
  | none => simp
  | some b => by_cases hz : b % 256 = 0 <;> simp [hz, set_freqM]

theorem set_device_loop_wire (mult : Int) (sc : Nat → Nat → Option Nat) :
    ∀ (n i : Nat) (b : Board) (w : List Frame),
      ∃ t, (set_device_loop mult sc n i b w).wire = w ++ t := by
  intro n
  induction n with
  | zero => intro i b w; exact ⟨[], by simp [set_device_loop]⟩
  | succ n ih =>
    intro i b w
    unfold set_device_loop
    split
    · exact ⟨[], by simp⟩
    · simp only
      split_ifs
      · exact ⟨_, rfl⟩
      · obtain ⟨t, ht⟩ := ih (i + 1) _ (w ++ _)
        exact ⟨_, by rw [ht, List.append_assoc]⟩

/-- The loop of `modminer_set_device` reaches FPGA `k` when the FPGAs before it
accept, and leaves it with only `freqMDefault` changed when it does not
accept. -/
theorem set_device_loop_attempt (mult : Int) (sc : Nat → Nat → Option Nat) :
    ∀ (n i : Nat) (b : Board) (w : List Frame) (k : Nat),
      i + n ≤ b.thr.length → i ≤ k → k < i + n →
      (∀ j, i ≤ j → j < k → accepted b.modminer.device_fd sc j (to_uchar (mult * 2)) = true) →
      Frame.SET_CLOCK k (to_uchar (mult * 2)) ∈ (set_device_loop mult sc n i b w).wire ∧
      (accepted b.modminer.device_fd sc k (to_uchar (mult * 2)) = false →
        (set_device_loop mult sc n i b w).reply ≠ none ∧
        (set_device_loop mult sc n i b w).board.thr[k]? =
          (b.thr[k]?).map (fun s => set_freqMDefault s (to_uchar mult))) := by
  intro n
  induction n with
  | zero => intro i b w k _ h1 h2; omega
  | succ n ih =>
    intro i b w k hlen hik hkn hacc
    have hi : i < b.thr.length := by omega
    have hget : b.thr[i]? = some b.thr[i] := List.getElem?_eq_getElem hi
    obtain ⟨c1, c2, c3, c4⟩ := set_device_change b.modminer b.thr[i] i mult sc
    unfold set_device_loop
    simp only [hget]
    simp only [set_freqMDefault] at c1 c2 c3 c4
    rcases Nat.eq_or_lt_of_le hik with hk | hk
    · subst hk
      cases ha : accepted b.modminer.device_fd sc i (to_uchar (mult * 2))
      · rw [ha] at c2
        simp only [c2, Bool.not_false, if_true, c1, c4 ha]
        refine ⟨by simp, fun _ => ⟨by simp, ?_⟩⟩
        simp [hget, hi, set_freqMDefault]
      · rw [ha] at c2
        simp only [c2, Bool.not_true, Bool.false_eq_true, if_false, c1]
        obtain ⟨t, ht⟩ := set_device_loop_wire mult sc n (i + 1)
          ⟨(modminer_change_clock b.modminer
              { b.thr[i] with dclk := { b.thr[i].dclk with freqMDefault := to_uchar mult } } i
              (to_schar ((mult - (b.thr[i].dclk.freqM : Int)) * 2)) (sc i)).modminer,
            b.thr.set i (modminer_change_clock b.modminer
              { b.thr[i] with dclk := { b.thr[i].dclk with freqMDefault := to_uchar mult } } i
              (to_schar ((mult - (b.thr[i].dclk.freqM : Int)) * 2)) (sc i)).state⟩
          (w ++ [Frame.SET_CLOCK i (to_uchar (mult * 2))])
        refine ⟨by rw [ht]; simp, fun h => by simp at h⟩
    · have ha := hacc i (le_refl _) hk
      rw [ha] at c2
      obtain ⟨c3m, c3s⟩ := c3 ha
      simp only [c2, Bool.not_true, Bool.false_eq_true, if_false, c1, c3m, c3s]
      have := ih (i + 1) ⟨b.modminer, b.thr.set i
          (set_freqM { b.thr[i] with dclk := { b.thr[i].dclk with freqMDefault := to_uchar mult } }
            (to_uchar (mult * 2) / 2))⟩
        (w ++ [Frame.SET_CLOCK i (to_uchar (mult * 2))]) k (by simp; omega) (by omega) (by omega)
        (fun j hj1 hj2 => hacc j (by omega) hj2)
      obtain ⟨g1, g2⟩ := this
      refine ⟨g1, fun h => ?_⟩
      obtain ⟨g3, g4⟩ := g2 h
      refine ⟨g3, ?_⟩
      rw [g4]
      simp only
      rw [List.getElem?_set_ne (by omega)]


theorem not_help_of_clock (option : List Char)
    (hopt : strncasecmp_eq option "clock".toList 5 = true) :
    strcasecmp_eq option "help".toList = false := by
  unfold strncasecmp_eq at hopt
  unfold strcasecmp_eq
  simp only [decide_eq_true_eq] at hopt
  simp only [decide_eq_false_iff_not]
  intro h
  have h1 := congrArg List.length hopt
  have h2 := congrArg List.length h
  simp at h1 h2
  omega

theorem set_device_valid (b : Board) (option setting : List Char)
    (sc : Nat → Nat → Option Nat)
    (hopt : strncasecmp_eq option "clock".toList 5 = true) (hset : setting ≠ [])
    (hval : atoi setting % 2 = 0 ∧ (MODMINER_MIN_CLOCK : Int) ≤ atoi setting ∧
      atoi setting ≤ (MODMINER_MAX_CLOCK : Int))
    (k : Nat) (hk : targeted option b.thr.length k) :
    ∃ n i, modminer_set_device b option (some setting) sc =
        set_device_loop (atoi setting / 2) sc n i b [] ∧
      i + n ≤ b.thr.length ∧ i ≤ k ∧ k < i + n ∧
      ∀ j, i ≤ j → j < k → targeted option b.thr.length j := by
  have hhelp := not_help_of_clock option hopt
  obtain ⟨c, cs, rfl⟩ := List.exists_cons_of_ne_nil hset
  obtain ⟨hk1, hk2⟩ := hk
  have hcond : ¬ (atoi (c :: cs) < (MODMINER_MIN_CLOCK : Nat) ∨
      atoi (c :: cs) > (MODMINER_MAX_CLOCK : Nat) ∨ atoi (c :: cs) % 2 ≠ 0) := by
    obtain ⟨h1, h2, h3⟩ := hval
    intro h
    rcases h with h | h | h
    · omega
    · omega
    · exact h h1
  unfold modminer_set_device
  simp only [hhelp, hopt, Bool.false_eq_true, if_false, if_true, hcond]
  by_cases hlen : option.length > 5
  · have hkN := hk2 hlen
    have hN : ¬ ((atoi (option.drop 5)).natAbs ≥ b.thr.length) := by omega
    simp only [hlen, if_true, hN, if_false]
    refine ⟨1, k, ?_, by omega, le_refl _, by omega, fun j h1 h2 => by omega⟩
    rw [hkN]
    congr 1
    omega
  · have h0 : ¬ (0 ≥ b.thr.length) := by omega
    simp only [hlen, if_false, h0]
    refine ⟨b.thr.length, 0, ?_, by omega, by omega, by omega,
      fun j _ h2 => ⟨by omega, fun h => absurd h hlen⟩⟩
    congr 1
    omega


theorem valid_clock_range (v : Int)
    (h : (MODMINER_MIN_CLOCK : Int) ≤ v ∧ v ≤ (MODMINER_MAX_CLOCK : Int)) :
    2 ≤ v ∧ v ≤ 230 := by
  unfold MODMINER_MIN_CLOCK MODMINER_MAX_CLOCK at h
  push_cast at h
  exact h

/-- C10: for every board and every valid even value `v` in [2,230], if the
SET_CLOCK(v) that `modminer_set_device` issues to a targeted FPGA is answered
with 0, then `freqM` of that FPGA is unchanged, its `freqMDefault` is `v / 2`,
and `modminer_set_device` returns a non-null reply. -/
theorem rejected_override (b : Board) (option setting : List Char)
    (set_clock : Nat → Nat → Option Nat) (k : Nat)
    (hopt : strncasecmp_eq option "clock".toList 5 = true) (hset : setting ≠ [])
    (hval : atoi setting % 2 = 0 ∧ (MODMINER_MIN_CLOCK : Int) ≤ atoi setting ∧
        atoi setting ≤ (MODMINER_MAX_CLOCK : Int))
    (hk : targeted option b.thr.length k)
    (hprev : ∀ j, targeted option b.thr.length j → j < k →
      accepted b.modminer.device_fd set_clock j (atoi setting).toNat = true)
    (hzero : answers_zero b.modminer.device_fd set_clock k (atoi setting).toNat) :
    Frame.SET_CLOCK k (atoi setting).toNat ∈
      (modminer_set_device b option (some setting) set_clock).wire ∧
    (modminer_set_device b option (some setting) set_clock).reply ≠ none ∧
    ∃ s s1, b.thr[k]? = some s ∧
      (modminer_set_device b option (some setting) set_clock).board.thr[k]? = some s1 ∧
      s1.dclk.freqM = s.dclk.freqM ∧
      (s1.dclk.freqMDefault : Int) = atoi setting / 2 := by
  obtain ⟨n, i, heq, h1, h2, h3, h4⟩ := set_device_valid b option setting set_clock hopt hset hval k hk
  have hclk : to_uchar (atoi setting / 2 * 2) = (atoi setting).toNat := by
    obtain ⟨e1, e2, e3⟩ := hval
    obtain ⟨e2n, e3n⟩ := valid_clock_range (atoi setting) ⟨e2, e3⟩
    unfold to_uchar; omega
  have hdef : ((to_uchar (atoi setting / 2) : Nat) : Int) = atoi setting / 2 := by
    obtain ⟨e1, e2, e3⟩ := hval
    obtain ⟨e2n, e3n⟩ := valid_clock_range (atoi setting) ⟨e2, e3⟩
    unfold to_uchar; omega
  have hrej : accepted b.modminer.device_fd set_clock k (to_uchar (atoi setting / 2 * 2)) = false := by
    obtain ⟨r, hr1, hr2⟩ := hzero
    rw [hclk]
    unfold accepted
    rw [hr1]
    simp [hr2]
  obtain ⟨g1, g2⟩ := set_device_loop_attempt (atoi setting / 2) set_clock n i b [] k h1 h2 h3
    (fun j hj1 hj2 => by rw [hclk]; exact hprev j (h4 j hj1 hj2) hj2)
  obtain ⟨g3, g4⟩ := g2 hrej
  rw [heq]
  rw [hclk] at g1
  obtain ⟨s0, hs0⟩ : ∃ s0, b.thr[k]? = some s0 := ⟨_, List.getElem?_eq_getElem hk.1⟩
  refine ⟨g1, g3, s0, set_freqMDefault s0 (to_uchar (atoi setting / 2)), hs0, ?_, rfl, hdef⟩
  rw [g4, hs0]
  rfl


/-- C10, witness: `freqM = 100`, `clock=202` rejected leaves `freqM = 100` and
sets `freqMDefault = 101`. -/
theorem rejected_override_witness :
    (state_100.dclk.freqM = 100 ∧ atoi "202".toList = 202) ∧
    (modminer_set_device ⟨⟨Fd.valid, 80, 0⟩, [state_100]⟩ "clock".toList (some "202".toList)
      rejects).reply ≠ none ∧
    (modminer_set_device ⟨⟨Fd.valid, 80, 0⟩, [state_100]⟩ "clock".toList (some "202".toList)
      rejects).wire = [Frame.SET_CLOCK 0 202] ∧
    (modminer_set_device ⟨⟨Fd.valid, 80, 0⟩, [state_100]⟩ "clock".toList (some "202".toList)
      rejects).board.thr.map (fun s => (s.dclk.freqM, s.dclk.freqMDefault)) = [(100, 101)] :=
  ⟨⟨rfl, by decide⟩,
   (rejected_override ⟨⟨Fd.valid, 80, 0⟩, [state_100]⟩ "clock".toList "202".toList rejects 0
      (by decide) (by decide) ⟨by decide, by decide, by decide⟩
      ⟨by decide, fun h => absurd h (by decide)⟩
      (fun j _ hlt => absurd hlt (Nat.not_lt_zero j))
      ⟨0, by decide, rfl⟩).2.1,
   by decide, by decide⟩

/-! ## Clock bounds -/

theorem within_limits_iff (s : modminer_fpga_state) :
    within_limits s ↔ (1 ≤ s.dclk.freqM ∧ s.dclk.freqM ≤ 115) ∧
      (1 ≤ s.dclk.freqMaxM ∧ s.dclk.freqMaxM ≤ 115) ∧
      (1 ≤ s.freqMaxMaxM ∧ s.freqMaxMaxM ≤ 115) := by
  unfold within_limits MODMINER_MIN_CLOCK MODMINER_MAX_CLOCK
  omega

theorem clock_chain_iff (s : modminer_fpga_state) :
    clock_chain s ↔ 1 ≤ s.dclk.freqM ∧ s.dclk.freqM ≤ s.dclk.freqMaxM ∧
      s.dclk.freqMaxM ≤ s.freqMaxMaxM ∧ s.freqMaxMaxM ≤ 115 := by
  unfold clock_chain MODMINER_MIN_CLOCK MODMINER_MAX_CLOCK
  omega

theorem clock_chain_within (s : modminer_fpga_state) (h : clock_chain s) : within_limits s := by
  rw [clock_chain_iff] at h
  rw [within_limits_iff]
  omega

theorem set_freqM_self (s : modminer_fpga_state) : set_freqM s s.dclk.freqM = s := rfl

/-- A SET_CLOCK of the current clock leaves the record as it is. -/
theorem change_clock_zero (m : cgpu_info) (s : modminer_fpga_state) (fpgaid : Nat)
    (sc : Nat → Option Nat) (hs : s.dclk.freqM ≤ 127) :
    (modminer_change_clock m s fpgaid 0 sc).state = s := by
  have hclk : to_uchar ((s.dclk.freqM : Int) * 2 + to_schar 0) / 2 = s.dclk.freqM := by
    unfold to_uchar to_schar; omega
  rcases change_clock_cases m s fpgaid 0 sc with ⟨_, h⟩ | ⟨_, h⟩
  · exact h
  · rw [h, hclk]; rfl

/-- A successful calibration search ends with `freqM` between 1 and the
frequency it started below, and changes nothing else. -/
theorem calibration_loop_state (fpgaid : Nat) (env : InitEnv) :
    ∀ (fuel k : Nat) (m : cgpu_info) (s : modminer_fpga_state) (w : List Frame) (c : ClockOut),
      s.dclk.freqM = k + 1 → k ≤ 127 →
      calibration_loop fpgaid env fuel m s w = some c → c.rv = true →
      ∃ f, 1 ≤ f ∧ f ≤ k ∧ c.state = set_freqM s f := by
  intro fuel
  induction fuel with
  | zero => intro k m s w c _ _ h; simp [calibration_loop] at h
  | succ fuel ih =>
    intro k m s w c hs hk h hrv
    unfold calibration_loop at h
    have hzero := change_clock_zero m (set_freqM s k) fpgaid env.set_clock (by simp [set_freqM]; omega)
    simp only [hs, Nat.add_sub_cancel] at h
    simp only [set_freqM] at hzero
    rw [hzero] at h
    split_ifs at h with h1 h2
    · cases h; simp at hrv
    · cases k with
      | zero =>
        exfalso; apply h1; decide
      | succ k =>
        obtain ⟨f, hf1, hf2, hf3⟩ := ih k _ _ _ c rfl (by omega) h hrv
        exact ⟨f, hf1, by omega, hf3⟩
    · have hk1 : 1 ≤ k := by
        have : MODMINER_MIN_CLOCK / 2 = 1 := by decide
        omega
      split at h
      · cases h; simp at hrv
      · split_ifs at h
        · cases k with
          | zero => omega
          | succ k =>
            obtain ⟨f, hf1, hf2, hf3⟩ := ih k _ _ _ c rfl (by omega) h hrv
            exact ⟨f, hf1, by omega, hf3⟩
        · cases h
          exact ⟨k, hk1, le_refl _, rfl⟩


theorem init_clock_chain (m : cgpu_info) (s : modminer_fpga_state) (fpgaid : Nat)
    (env : InitEnv) (log : List Nat) (w : List Frame) (o : InitOut)
    (h : modminer_fpga_init_clock m s fpgaid env log w = some o) (hrv : o.rv = true) :
    clock_chain o.state := by
  unfold modminer_fpga_init_clock at h
  simp only at h
  split at h
  · cases h
  · rename_i c hc
    by_cases h1 : (!c.rv) = true
    · simp only [h1, if_true] at h
      cases h; simp at hrv
    · simp only [h1, if_false] at h
      have hcrv : c.rv = true := by simpa using h1
      obtain ⟨f, hf1, hf2, hf3⟩ := calibration_loop_state fpgaid env _ 115 m _ w c rfl
        (by omega) hc hcrv
      have hfM : c.state.dclk.freqM = f := by rw [hf3]; rfl
      have h100 : MODMINER_DEF_CLOCK / 2 = 100 := by decide
      have hD : ((MODMINER_DEF_CLOCK : Nat) : Int) = 200 := by decide
      cases h
      rw [clock_chain_iff]
      by_cases h2 : MODMINER_DEF_CLOCK / 2 < c.state.dclk.freqM
      · simp only [h2, if_true]
        rcases change_clock_cases c.modminer
          { c.state with
            freqMaxMaxM := c.state.dclk.freqM,
            dclk := { c.state.dclk with freqMaxM := c.state.dclk.freqM } }
          fpgaid (-((c.state.dclk.freqM : Int) * 2 - (MODMINER_DEF_CLOCK : Nat))) env.set_clock
          with ⟨_, hst⟩ | ⟨_, hst⟩
        · rw [hst]
          simp only [hfM]
          omega
        · rw [hst]
          have hclk : to_uchar ((f : Int) * 2 +
              to_schar (-((f : Int) * 2 - (MODMINER_DEF_CLOCK : Nat)))) / 2 = 100 := by
            rw [hD]; unfold to_uchar to_schar; omega
          simp only [set_freqM, hfM, hclk]
          omega
      · simp only [h2, if_false]
        show 1 ≤ c.state.dclk.freqM ∧ c.state.dclk.freqM ≤ c.state.dclk.freqM ∧
          c.state.dclk.freqM ≤ c.state.dclk.freqM ∧ c.state.dclk.freqM ≤ 115
        rw [hfM]
        omega

theorem init_from_clock (m : cgpu_info) (s : modminer_fpga_state) (fpgaid : Nat)
    (env : InitEnv) (o : InitOut)
    (ho : modminer_fpga_init m s fpgaid env = some o) (hrv : o.rv = true) :
    ∃ m1 s1 log w, modminer_fpga_init_clock m1 s1 fpgaid env log w = some o := by
  unfold modminer_fpga_init at ho
  by_cases h1 : m.device_fd = Fd.minus_one
  · simp only [h1, if_true] at ho
    cases ho; simp at hrv
  · simp only [h1, if_false] at ho
    cases hu : port_reply m.device_fd env.usercode with
    | none => simp only [hu] at ho; cases ho; simp at hrv
    | some buf =>
      simp only [hu] at ho
      by_cases h2 : buf ≠ BISTREAM_USER_ID ∨ env.force_dev_init = true
      · simp only [h2, if_true] at ho
        cases hup : modminer_fpga_upload_bitstream m env.upload with
        | none => simp only [hup] at ho; cases ho
        | some u =>
          simp only [hup] at ho
          by_cases h3 : (!u.rv) = true
          · simp only [h3, if_true] at ho
            cases ho; simp at hrv
          · simp only [h3, if_false] at ho
            exact ⟨_, _, _, _, ho⟩
      · simp only [h2, if_false] at ho
        exact ⟨_, _, _, _, ho⟩

/-- A successful `modminer_fpga_init` establishes the chain. -/
theorem calibrated_chain (st : modminer_fpga_state) (h : Calibrated st) : clock_chain st := by
  obtain ⟨m, s, fpgaid, env, o, ho, hrv, rfl⟩ := h
  obtain ⟨m1, s1, log, w, h1⟩ := init_from_clock m s fpgaid env o ho hrv
  exact init_clock_chain m1 s1 fpgaid env log w o h1 hrv


/-- A thermal step keeps the limits and the chain. -/
theorem thermal_clocks (h : Int) (m : cgpu_info) (s : modminer_fpga_state)
    (fpgaid : Nat) (e : TempEnv) :
    (within_limits s → within_limits (modminer_get_temperature h m s fpgaid e).state) ∧
    (clock_chain s → clock_chain (modminer_get_temperature h m s fpgaid e).state) := by
  simp only [within_limits_iff, clock_chain_iff]
  unfold modminer_get_temperature
  split
  · exact ⟨id, id⟩
  · rename_i b hb
    simp only
    split_ifs with h1 h2 h3 h4
    · rcases reduce_clock_cases m
        { s with temp := to_uchar (char_value b), last_cutoff_reduced := e.now } fpgaid e.set_clock
        with hc | ⟨hgt, hc⟩
      · rw [hc]
        constructor
        · intro hw; dsimp only; omega
        · intro hw; dsimp only; omega
      · rw [hc]
        simp only [set_freqM] at hgt ⊢
        constructor
        · intro hw
          have : to_uchar ((s.dclk.freqM : Int) * 2 + to_schar (-2)) / 2 = s.dclk.freqM - 1 := by
            unfold to_uchar to_schar; omega
          rw [this]; omega
        · intro hw
          have : to_uchar ((s.dclk.freqM : Int) * 2 + to_schar (-2)) / 2 = s.dclk.freqM - 1 := by
            unfold to_uchar to_schar; omega
          rw [this]; omega
    · exact ⟨id, id⟩
    · dsimp only at h3 ⊢
      constructor
      · intro hw; omega
      · intro hw; omega
    · dsimp only at h3 ⊢
      constructor
      · intro hw
        have : to_uchar ((s.dclk.freqMaxM : Int) + 1) = s.dclk.freqMaxM + 1 := by
          unfold to_uchar; omega
        rw [this]; omega
      · intro hw
        have : to_uchar ((s.dclk.freqMaxM : Int) + 1) = s.dclk.freqMaxM + 1 := by
          unfold to_uchar; omega
        rw [this]; omega
    · exact ⟨id, id⟩

/-- A governor callback with a multiplier in `[MODMINER_MIN_CLOCK / 2, freqMaxM]`
keeps the limits and the chain. -/
theorem governor_clocks (m : cgpu_info) (s : modminer_fpga_state) (fpgaid : Nat)
    (mult : Int) (sc : Nat → Option Nat)
    (hm : ((MODMINER_MIN_CLOCK / 2 : Nat) : Int) ≤ mult ∧ mult ≤ (s.dclk.freqMaxM : Int)) :
    (within_limits s → within_limits (modminer_dclk_change_clock m s fpgaid mult sc).state) ∧
    (clock_chain s → clock_chain (modminer_dclk_change_clock m s fpgaid mult sc).state) := by
  simp only [within_limits_iff, clock_chain_iff]
  have hmin : ((MODMINER_MIN_CLOCK / 2 : Nat) : Int) = 1 := by decide
  rw [hmin] at hm
  unfold modminer_dclk_change_clock
  simp only
  rcases change_clock_cases m s fpgaid (to_schar ((mult - (s.dclk.freqM : Int)) * 2)) sc
    with ⟨_, hc⟩ | ⟨_, hc⟩
  · rw [hc]; exact ⟨id, id⟩
  · rw [hc, clk_towards]
    simp only [set_freqM]
    constructor
    · intro hw
      have : ((to_uchar (mult * 2) / 2 : Nat) : Int) = mult := by unfold to_uchar; omega
      omega
    · intro hw
      have : ((to_uchar (mult * 2) / 2 : Nat) : Int) = mult := by unfold to_uchar; omega
      omega

/-- Outside that range the callback leaves the limits: an accepted multiplier 0
gives `freqM = 0`, an accepted multiplier 120 gives `freqM = 120`. -/
theorem governor_outside_range :
    (modminer_dclk_change_clock ⟨Fd.valid, 80, 0⟩ state_100 0 0 accepts).state.dclk.freqM = 0 ∧
    (modminer_dclk_change_clock ⟨Fd.valid, 80, 0⟩ state_100 0 120 accepts).state.dclk.freqM =
      120 := by
  decide

theorem set_device_loop_within (mult : Int) (sc : Nat → Nat → Option Nat)
    (hm : 1 ≤ mult ∧ mult ≤ 115) :
    ∀ (n i : Nat) (b : Board) (w : List Frame),
      (∀ st ∈ b.thr, within_limits st) →
      ∀ st ∈ (set_device_loop mult sc n i b w).board.thr, within_limits st := by
  intro n
  induction n with
  | zero => intro i b w hb; simpa [set_device_loop] using hb
  | succ n ih =>
    intro i b w hb
    unfold set_device_loop
    split
    · exact hb
    · rename_i state hget
      have hstate : within_limits state := hb state (List.getElem?_mem hget)
      obtain ⟨c1, c2, c3, c4⟩ := set_device_change b.modminer state i mult sc
      simp only [set_freqMDefault] at c1 c2 c3 c4
      have hnew : within_limits (modminer_change_clock b.modminer
          { state with dclk := { state.dclk with freqMDefault := to_uchar mult } } i
          (to_schar ((mult - (state.dclk.freqM : Int)) * 2)) (sc i)).state := by
        cases ha : accepted b.modminer.device_fd sc i (to_uchar (mult * 2))
        · rw [c4 ha]
          rw [within_limits_iff] at hstate ⊢
          exact hstate
        · rw [(c3 ha).2]
          rw [within_limits_iff] at hstate ⊢
          simp only [set_freqM]
          have : to_uchar (mult * 2) / 2 = mult.toNat := by unfold to_uchar; omega
          rw [this]
          omega
      have hall : ∀ st ∈ b.thr.set i (modminer_change_clock b.modminer
          { state with dclk := { state.dclk with freqMDefault := to_uchar mult } } i
          (to_schar ((mult - (state.dclk.freqM : Int)) * 2)) (sc i)).state, within_limits st := by
        intro st hst
        rcases List.mem_or_eq_of_mem_set hst with h | h
        · exact hb st h
        · rw [h]; exact hnew
      simp only
      split_ifs
      · exact hall
      · exact ih (i + 1) _ _ hall

/-- A user override keeps the limits. -/
theorem set_device_within (b : Board) (option : List Char) (setting : Option (List Char))
    (sc : Nat → Nat → Option Nat) (hb : ∀ st ∈ b.thr, within_limits st) :
    ∀ st ∈ (modminer_set_device b option setting sc).board.thr, within_limits st := by
  have hloop : ∀ (val : Int) (n i : Nat),
      ¬ (val < ((MODMINER_MIN_CLOCK : Nat) : Int) ∨ val > ((MODMINER_MAX_CLOCK : Nat) : Int) ∨
        val % 2 ≠ 0) →
      ∀ st ∈ (set_device_loop (val / 2) sc n i b []).board.thr, within_limits st := by
    intro val n i hv
    apply set_device_loop_within _ sc _ _ _ b [] hb
    have h2 : ¬ val < ((MODMINER_MIN_CLOCK : Nat) : Int) := fun h => hv (Or.inl h)
    have h3 : ¬ val > ((MODMINER_MAX_CLOCK : Nat) : Int) := fun h => hv (Or.inr (Or.inl h))
    obtain ⟨e2, e3⟩ := valid_clock_range val ⟨by omega, by omega⟩
    omega
  unfold modminer_set_device
  simp only
  split_ifs
  · exact hb
  · exact hb
  · split
    · exact hb
    · exact hb
    · split_ifs with hv
      · exact hb
      · exact hloop _ _ _ hv
  · exact hb
  · split
    · exact hb
    · exact hb
    · split_ifs with hv
      · exact hb
      · exact hloop _ _ _ hv
  · exact hb


theorem set_mem_of_all {P : modminer_fpga_state → Prop} (l : List modminer_fpga_state)
    (i : Nat) (x : modminer_fpga_state) (hl : ∀ st ∈ l, P st) (hx : P x) :
    ∀ st ∈ l.set i x, P st := by
  intro st hst
  rcases List.mem_or_eq_of_mem_set hst with h | h
  · exact hl st h
  · rw [h]; exact hx

theorem step_clocks (h : Int) (b b1 : Board) (a : Action) (hs : step h b a = some b1) :
    ((∀ st ∈ b.thr, within_limits st) → ∀ st ∈ b1.thr, within_limits st) ∧
    (a.is_user = false → (∀ st ∈ b.thr, clock_chain st) → ∀ st ∈ b1.thr, clock_chain st) := by
  cases a with
  | thermal fpgaid env =>
    unfold step at hs
    cases hget : b.thr[fpgaid]? with
    | none => simp [hget] at hs
    | some state =>
      simp only [hget, Option.some.injEq] at hs
      subst hs
      have hmem := List.getElem?_mem hget
      obtain ⟨t1, t2⟩ := thermal_clocks h b.modminer state fpgaid env
      exact ⟨fun hb => set_mem_of_all _ _ _ hb (t1 (hb state hmem)),
        fun _ hb => set_mem_of_all _ _ _ hb (t2 (hb state hmem))⟩
  | governor fpgaid mult sc =>
    unfold step at hs
    cases hget : b.thr[fpgaid]? with
    | none => simp [hget] at hs
    | some state =>
      simp only [hget] at hs
      split_ifs at hs with hm
      simp only [Option.some.injEq] at hs
      subst hs
      have hmem := List.getElem?_mem hget
      obtain ⟨t1, t2⟩ := governor_clocks b.modminer state fpgaid mult sc hm
      exact ⟨fun hb => set_mem_of_all _ _ _ hb (t1 (hb state hmem)),
        fun _ hb => set_mem_of_all _ _ _ hb (t2 (hb state hmem))⟩
  | user option setting sc =>
    unfold step at hs
    simp only [Option.some.injEq] at hs
    subst hs
    exact ⟨fun hb => set_device_within b option setting sc hb, fun hu => by simp [Action.is_user] at hu⟩

theorem run_clocks (h : Int) :
    ∀ (acts : List Action) (b b1 : Board), run h b acts = some b1 →
      ((∀ st ∈ b.thr, within_limits st) → ∀ st ∈ b1.thr, within_limits st) ∧
      ((∀ a ∈ acts, a.is_user = false) → (∀ st ∈ b.thr, clock_chain st) →
        ∀ st ∈ b1.thr, clock_chain st) := by
  intro acts
  induction acts with
  | nil =>
    intro b b1 hr
    simp only [run, Option.some.injEq] at hr
    subst hr
    exact ⟨id, fun _ => id⟩
  | cons a as ih =>
    intro b b1 hr
    unfold run at hr
    cases hstep : step h b a with
    | none => simp [hstep] at hr
    | some b2 =>
      simp only [hstep] at hr
      obtain ⟨s1, s2⟩ := step_clocks h b b2 a hstep
      obtain ⟨r1, r2⟩ := ih b2 b1 hr
      exact ⟨fun hb => r1 (s1 hb),
        fun hu hb => r2 (fun x hx => hu x (List.mem_cons_of_mem _ hx))
          (s2 (hu a (List.mem_cons_self _ _)) hb)⟩

/-- C1 (amended): in every state reachable from successful
`modminer_fpga_init`s by any sequence of thermal steps, governor callbacks
(with a multiplier in `[MODMINER_MIN_CLOCK / 2, freqMaxM]`) and user overrides,
with any device answers, each of `freqM*2`, `freqMaxM*2` and `freqMaxMaxM*2` of
each FPGA lies in `[MODMINER_MIN_CLOCK, MODMINER_MAX_CLOCK]`; and when the
sequence has no user override each FPGA satisfies the whole chain
`MODMINER_MIN_CLOCK <= freqM*2 <= freqMaxM*2 <= freqMaxMaxM*2 <= MODMINER_MAX_CLOCK`. -/
theorem clock_bounds (opt_hysteresis : Int) (b0 : Board) (acts : List Action) (b : Board)
    (h0 : ∀ st ∈ b0.thr, Calibrated st) (hrun : run opt_hysteresis b0 acts = some b) :
    (∀ st ∈ b.thr, within_limits st) ∧
    ((∀ a ∈ acts, a.is_user = false) → ∀ st ∈ b.thr, clock_chain st) := by
  obtain ⟨r1, r2⟩ := run_clocks opt_hysteresis acts b0 b hrun
  exact ⟨r1 (fun st hst => clock_chain_within st (calibrated_chain st (h0 st hst))),
    fun hu => r2 hu (fun st hst => calibrated_chain st (h0 st hst))⟩

theorem state_100_calibrated : Calibrated state_100 :=
  ⟨⟨Fd.valid, 80, 0⟩, modminer_fpga_prepare 0, 0, device_env device_228 programmed_env,
    ⟨true, ⟨Fd.valid, 80, 0⟩, state_100, [],
      [Frame.GET_USERCODE 0, Frame.SET_CLOCK 0 230, Frame.SET_CLOCK 0 228, Frame.CHECK_WORK 0,
        Frame.SET_CLOCK 0 200]⟩,
    by decide, rfl, rfl⟩

theorem board1_calibrated : ∀ st ∈ board1.thr, Calibrated st := by
  intro st hst
  have : st = state_100 := by simpa [board1] using hst
  rw [this]; exact state_100_calibrated

/-- C1, counterexample: after a thermal throttle (`freqM = freqMaxM = 99`) the
user override `clock=200` is accepted and leaves `freqM*2 = 200` above
`freqMaxM*2 = 198`. -/
theorem clock_bounds_user_override :
    (∀ st ∈ board1.thr, Calibrated st) ∧
    run 3 board1 [Action.thermal 0 hot_reading,
      Action.user "clock".toList (some "200".toList) (fun _ => accepts)] =
        some ⟨⟨Fd.valid, 80, 0⟩, [set_freqM state_99 100]⟩ ∧
    ¬ ((set_freqM state_99 100).dclk.freqM * 2 ≤ (set_freqM state_99 100).dclk.freqMaxM * 2) ∧
    ¬ clock_chain (set_freqM state_99 100) := by
  refine ⟨board1_calibrated, by decide, by decide, ?_⟩
  rw [clock_chain_iff]
  decide

/-- C1, witness: a thermal throttle followed by a governor callback at 99. -/
theorem clock_bounds_witness :
    (∀ st ∈ ([state_99] : List modminer_fpga_state), within_limits st) ∧
    ((∀ a ∈ [Action.thermal 0 hot_reading, Action.governor 0 99 accepts], a.is_user = false) →
      ∀ st ∈ ([state_99] : List modminer_fpga_state), clock_chain st) :=
  clock_bounds 3 board1 [Action.thermal 0 hot_reading, Action.governor 0 99 accepts]
    ⟨⟨Fd.valid, 80, 0⟩, [state_99]⟩ board1_calibrated (by decide)

/-! ## Governor callback -/

/-- C13: for every current `freqM` (0..255 included) and every requested
multiplier `m` in `[MODMINER_MIN_CLOCK / 2, MODMINER_MAX_CLOCK / 2]`, on an open
port that answers the SET_CLOCK with the byte `r`, `modminer_dclk_change_clock`
puts the even byte `2 * m` on the wire as the clock argument of one SET_CLOCK;
if `r` is not zero `freqM` becomes `m`, nothing else changes and the callback
returns true; if `r` is zero the record is unchanged and the callback returns
false. -/
theorem governor_callback (modminer : cgpu_info) (state : modminer_fpga_state)
    (fpgaid m r : Nat) (set_clock : Nat → Option Nat)
    (hm : MODMINER_MIN_CLOCK / 2 ≤ m ∧ m ≤ MODMINER_MAX_CLOCK / 2)
    (hfd : modminer.device_fd = Fd.valid) (hreply : set_clock (2 * m) = some r) :
    (modminer_dclk_change_clock modminer state fpgaid (m : Int) set_clock).wire =
      [Frame.SET_CLOCK fpgaid (2 * m)] ∧
    (r % 256 ≠ 0 →
      (modminer_dclk_change_clock modminer state fpgaid (m : Int) set_clock).rv = true ∧
      (modminer_dclk_change_clock modminer state fpgaid (m : Int) set_clock).state.dclk.freqM = m ∧
      (modminer_dclk_change_clock modminer state fpgaid (m : Int) set_clock).state =
        set_freqM state m) ∧
    (r % 256 = 0 →
      (modminer_dclk_change_clock modminer state fpgaid (m : Int) set_clock).rv = false ∧
      (modminer_dclk_change_clock modminer state fpgaid (m : Int) set_clock).state = state) := by
  have hmax : MODMINER_MAX_CLOCK / 2 = 115 := by decide
  have hm2 : m ≤ 115 := by omega
  have hclk : to_uchar ((state.dclk.freqM : Int) * 2 +
      to_schar (to_schar (((m : Int) - (state.dclk.freqM : Int)) * 2))) = 2 * m := by
    rw [clk_towards]; unfold to_uchar; omega
  have hhalf : 2 * m / 2 = m := by omega
  unfold modminer_dclk_change_clock modminer_change_clock
  simp only [hclk, port_reply, hfd, if_true, hreply, hhalf]
  refine ⟨?_, ?_, ?_⟩
  · split_ifs <;> rfl
  · intro hr; simp [hr, set_freqM]
  · intro hr; simp [hr]

/-- C13, witness: at `freqM = 100` a request for 101 puts 202 on the wire; the
device accepts and `freqM` is 101. -/
theorem governor_callback_witness :
    (modminer_dclk_change_clock ⟨Fd.valid, 80, 0⟩ state_100 0 (101 : Nat) accepts).wire =
      [Frame.SET_CLOCK 0 (2 * 101)] ∧
    (modminer_dclk_change_clock ⟨Fd.valid, 80, 0⟩ state_100 0 (101 : Nat) accepts).rv = true ∧
    (modminer_dclk_change_clock ⟨Fd.valid, 80, 0⟩ state_100 0 (101 : Nat) accepts).state.dclk.freqM
      = 101 ∧
    (modminer_dclk_change_clock ⟨Fd.valid, 80, 0⟩ state_100 0 (101 : Nat) (rejects 0)).rv = false ∧
    (modminer_dclk_change_clock ⟨Fd.valid, 80, 0⟩ state_100 0 (101 : Nat) (rejects 0)).state
      = state_100 :=
  ⟨(governor_callback ⟨Fd.valid, 80, 0⟩ state_100 0 101 1 accepts
      ⟨by decide, by decide⟩ rfl rfl).1,
   ((governor_callback ⟨Fd.valid, 80, 0⟩ state_100 0 101 1 accepts
      ⟨by decide, by decide⟩ rfl rfl).2.1 (by decide)).1,
   ((governor_callback ⟨Fd.valid, 80, 0⟩ state_100 0 101 1 accepts
      ⟨by decide, by decide⟩ rfl rfl).2.1 (by decide)).2.1,
   ((governor_callback ⟨Fd.valid, 80, 0⟩ state_100 0 101 0 (rejects 0)
      ⟨by decide, by decide⟩ rfl rfl).2.2 (by decide)).1,
   ((governor_callback ⟨Fd.valid, 80, 0⟩ state_100 0 101 0 (rejects 0)
      ⟨by decide, by decide⟩ rfl rfl).2.2 (by decide)).2⟩

/-! ## Programming progress -/

theorem chunk_sizes_zero : chunk_sizes 0 = [] := by decide

theorem pdone_values_zero (L : Nat) : pdone_values L 0 = [] := by
  simp [pdone_values]

theorem chunk_sizes_step (len : Nat) (h : len ≠ 0) :
    chunk_sizes len = (if len < 32 then len else 32) ::
      chunk_sizes (len - (if len < 32 then len else 32)) := by
  unfold chunk_sizes
  by_cases h32 : len < 32
  · have h1 : len / 32 = 0 := by omega
    have h2 : len % 32 = len := by omega
    simp [h32, h1, h2, h]
  · have h1 : len / 32 = (len - 32) / 32 + 1 := by omega
    have h2 : (len - 32) % 32 = len % 32 := by omega
    simp only [h32, if_false, h2]
    rw [h1, List.replicate_succ, List.cons_append]

theorem pdone_values_step (L len : Nat) (h : len ≠ 0) :
    pdone_values L len = (100 - len * 100 / L) ::
      pdone_values L (len - (if len < 32 then len else 32)) := by
  unfold pdone_values
  by_cases h32 : len < 32
  · have h1 : (len + 31) / 32 = 1 := by omega
    have h0 : (0 + 31) / 32 = 0 := by decide
    simp only [h32, if_true, h1, Nat.sub_self, h0]
    rfl
  · have h1 : (len + 31) / 32 = (len - 32 + 31) / 32 + 1 := by omega
    simp only [h32, if_false]
    rw [h1, List.range_succ_eq_map, List.map_cons, List.map_map]
    simp only [Nat.mul_zero, Nat.sub_zero]
    congr 1
    apply List.map_congr_left
    intro k _
    simp only [Function.comp]
    have : len - 32 * (k + 1) = len - 32 - 32 * k := by omega
    rw [this]


/-- The value stored into `pdone` when `len` bytes are unsent. -/
theorem pdone_byte (L len : Nat) (hL : L * 100 < 2 ^ 64) (hlen : len ≤ L) (hpos : 0 < L) :
    to_uchar (((100 + 2 ^ 64 - (len * 100) % 2 ^ 64 / L : Nat) : Int) % 2 ^ 64) =
      100 - len * 100 / L := by
  have h1 : len * 100 ≤ L * 100 := Nat.mul_le_mul_right 100 hlen
  have h2 : (len * 100) % 2 ^ 64 = len * 100 := Nat.mod_eq_of_lt (by omega)
  have h3 : len * 100 / L ≤ 100 := by
    apply Nat.div_le_of_le_mul
    exact h1
  rw [h2]
  generalize len * 100 / L = q at h3
  unfold to_uchar
  omega

/-- The upload loop on a device that acknowledges every chunk. -/
theorem upload_loop_acked (m : cgpu_info) (env : UploadEnv) (L : Nat)
    (hfd : m.device_fd = Fd.valid) (hL : L * 100 < 2 ^ 64) (hpos : 0 < L)
    (hread : ∀ n, env.fread_ok n = true) (hchunk : ∀ n, env.chunk n = ChunkAck.status 1)
    (hfinal : env.final = ChunkAck.status 1) :
    ∀ (fuel len : Nat) (log : List Nat) (wire : List Frame), len ≤ fuel → len ≤ L →
      upload_loop m env L fuel len log wire =
        some ⟨true, m, log ++ pdone_values L len, wire ++ (chunk_sizes len).map Frame.DATA⟩ := by
  have hst : status_read m.device_fd (ChunkAck.status 1) = true := by
    simp [status_read, hfd]
  have hwr : write_ok m.device_fd (ChunkAck.status 1) = true := by
    simp [write_ok, hfd]
  intro fuel
  induction fuel with
  | zero =>
    intro len log wire h1 _
    have : len = 0 := by omega
    subst this
    unfold upload_loop
    simp [hfinal, hst, chunk_sizes_zero, pdone_values_zero]
  | succ fuel ih =>
    intro len log wire h1 h2
    unfold upload_loop
    by_cases hz : len = 0
    · subst hz
      simp [hfinal, hst, chunk_sizes_zero, pdone_values_zero]
    · simp only [hz, if_false, hread, hchunk, hwr, hst, Bool.not_true, Bool.false_eq_true]
      rw [pdone_byte L len hL h2 hpos]
      rw [ih _ _ _ (by split_ifs <;> omega) (by omega)]
      rw [pdone_values_step L len hz, chunk_sizes_step len hz]
      simp


theorem data_frames_append (a b : List Frame) :
    data_frames (a ++ b) = data_frames a ++ data_frames b := by
  simp [data_frames, List.filterMap_append]

theorem data_frames_map (l : List Nat) : data_frames (l.map Frame.DATA) = l := by
  induction l with
  | nil => rfl
  | cons a l ih => simp only [List.map_cons, data_frames, List.filterMap_cons] at ih ⊢; rw [ih]

theorem chunk_sizes_length (L : Nat) : (chunk_sizes L).length = (L + 31) / 32 := by
  unfold chunk_sizes
  split_ifs <;> simp <;> omega

theorem pdone_values_head (L : Nat) (hpos : 0 < L) : (pdone_values L L).head? = some 0 := by
  rw [pdone_values_step L L (by omega), Nat.mul_comm L 100, Nat.mul_div_cancel 100 hpos]
  rfl

theorem pdone_values_last (L : Nat) (hpos : 0 < L) :
    (pdone_values L L).getLast? =
      some (100 - (if L % 32 = 0 then 32 else L % 32) * 100 / L) := by
  have hn : 1 ≤ (L + 31) / 32 := by omega
  have hlast : L - 32 * ((L + 31) / 32 - 1) = (if L % 32 = 0 then 32 else L % 32) := by
    split_ifs <;> omega
  rw [List.getLast?_eq_getElem?]
  unfold pdone_values
  simp only [List.length_map, List.length_range, List.getElem?_map]
  rw [List.getElem?_range (by omega)]
  simp only [Option.map_some']
  rw [hlast]

/-- C12 (amended): for every bitstream length `L > 0` with `L * 100 < 2^64`, on
a device that acknowledges everything, `modminer_fpga_upload_bitstream` succeeds
and sends the bitstream in `ceil(L/32)` chunks of 32 bytes (the last of
`L mod 32` bytes when that is not zero); the value stored into `pdone` at each
chunk is `100 - floor(unsent * 100 / L)` where `unsent` is the number of bytes
unsent before that chunk is deducted, so `pdone` is 0 at the first chunk and
`100 - floor(last * 100 / L)` at the last chunk, `last` being its size. -/
theorem upload_progress (modminer : cgpu_info) (env : UploadEnv) (L : Nat)
    (hfd : modminer.device_fd = Fd.valid) (hpos : 0 < L) (hL : L * 100 < 2 ^ 64)
    (hflen : env.flen = some L) (hcmd : env.cmd = ChunkAck.status 1)
    (hread : ∀ n, env.fread_ok n = true) (hchunk : ∀ n, env.chunk n = ChunkAck.status 1)
    (hfinal : env.final = ChunkAck.status 1) :
    ∃ u, modminer_fpga_upload_bitstream modminer env = some u ∧ u.rv = true ∧
      data_frames u.wire = chunk_sizes L ∧
      (chunk_sizes L).length = (L + 31) / 32 ∧
      u.pdone_log = pdone_values L L ∧
      u.pdone_log.head? = some 0 ∧
      u.pdone_log.getLast? = some (100 - (if L % 32 = 0 then 32 else L % 32) * 100 / L) := by
  have hmod : L % 2 ^ 64 = L := Nat.mod_eq_of_lt (by omega)
  have hst : status_read modminer.device_fd (ChunkAck.status 1) = true := by
    simp [status_read, hfd]
  have hwr : write_ok modminer.device_fd (ChunkAck.status 1) = true := by
    simp [write_ok, hfd]
  have hloop := upload_loop_acked modminer env L hfd hL hpos hread hchunk hfinal L L []
    [Frame.PROGRAM FPGAID_ALL (L % 2 ^ 32)] (le_refl _) (le_refl _)
  refine ⟨⟨true, modminer, pdone_values L L,
    [Frame.PROGRAM FPGAID_ALL (L % 2 ^ 32)] ++ (chunk_sizes L).map Frame.DATA⟩, ?_, rfl, ?_,
    chunk_sizes_length L, rfl, pdone_values_head L hpos, pdone_values_last L hpos⟩
  · unfold modminer_fpga_upload_bitstream
    simp only [hflen, hcmd, hwr, hst, hmod, Bool.not_true, Bool.false_eq_true, if_false]
    rw [hloop]
    simp
  · rw [data_frames_append, data_frames_map]
    rfl


/-- C12, witness: for `L = 48` the chunks are of 32 and 16 bytes and the values
stored into `pdone` are 0 and 67, so that `pdone` takes the values 0, 0, 67, 101
from the initial state to the end of `modminer_fpga_init`. -/
theorem upload_progress_witness :
    (∃ u, modminer_fpga_upload_bitstream ⟨Fd.valid, 80, 0⟩ (upload_acked 48) = some u ∧
      u.rv = true ∧
      data_frames u.wire = chunk_sizes 48 ∧
      (chunk_sizes 48).length = (48 + 31) / 32 ∧
      u.pdone_log = pdone_values 48 48 ∧
      u.pdone_log.head? = some 0 ∧
      u.pdone_log.getLast? = some (100 - (if 48 % 32 = 0 then 32 else 48 % 32) * 100 / 48)) ∧
    chunk_sizes 48 = [32, 16] ∧ pdone_values 48 48 = [0, 67] ∧
    (modminer_fpga_init ⟨Fd.valid, 80, 0⟩ (modminer_fpga_prepare 0) 0
        (device_env device_228 (unprogrammed_env 48))).map
      (fun o => (modminer_fpga_prepare 0).pdone :: o.pdone_log ++ [o.state.pdone]) =
      some [0, 0, 67, 101] :=
  ⟨upload_progress ⟨Fd.valid, 80, 0⟩ (upload_acked 48) 48 rfl (by decide) (by norm_num) rfl rfl
    (fun _ => rfl) (fun _ => rfl) rfl, by decide, by decide, by decide⟩

/-- C12, counterexample: for `L = 48` the values taken by `pdone` from the
initial state to the end of `modminer_fpga_init` are 0, 0, 67, 101, where the
formula with the bytes unsent after each chunk gives 67 and 100; and for
`L = 2^63` the 64-bit product wraps and the first chunk stores 100. -/
theorem upload_progress_48 :
    (modminer_fpga_init ⟨Fd.valid, 80, 0⟩ (modminer_fpga_prepare 0) 0
        (device_env device_228 (unprogrammed_env 48))).map
      (fun o => (o.rv, (modminer_fpga_prepare 0).pdone :: o.pdone_log ++ [o.state.pdone],
        data_frames o.wire)) = some (true, [0, 0, 67, 101], [32, 16]) ∧
    (100 - (48 - 32) * 100 / 48, 100 - (48 - 48) * 100 / 48) = (67, 100) ∧
    (modminer_fpga_upload_bitstream ⟨Fd.valid, 80, 0⟩ (upload_first_nak (2 ^ 63))).map
      (fun u => u.pdone_log) = some [100] ∧
    100 - (2 ^ 63 - 32) * 100 / 2 ^ 63 = 1 := by
  decide

/-! ## Nonce accounting -/

theorem check_works_append (a b : List Frame) :
    check_works (a ++ b) = check_works a + check_works b := by
  simp [check_works, List.filter_append]

theorem nonce_replies_append (a b : List Nat) :
    nonce_replies (a ++ b) = nonce_replies a + nonce_replies b := by
  simp [nonce_replies, List.filter_append]

theorem replies_from_zero (fd : Fd) (poll : Nat → PollEvent) (i : Nat) :
    replies_from fd poll i 0 = [] := by
  simp [replies_from]

theorem replies_from_succ (fd : Fd) (poll : Nat → PollEvent) (i k : Nat) :
    replies_from fd poll i (k + 1) =
      (port_reply fd (poll i).reply).toList ++ replies_from fd poll (i + 1) k := by
  unfold replies_from
  rw [List.range'_succ, List.filterMap_cons]
  cases port_reply fd (poll i).reply <;> simp

theorem process_nonce_shares (test_nonce : work → Nat → Bool) (p : PollState) (nonce : Nat) :
    shares (process_nonce test_nonce p nonce).state = shares p.state + nonce_replies [nonce] := by
  unfold process_nonce shares nonce_replies
  by_cases h : nonce % 2 ^ 32 = NONCE_NONE
  · have h1 : nonce % 4294967296 = NONCE_NONE := h
    rw [if_pos h]
    simp [h1]
  · have h1 : ¬ nonce % 4294967296 = NONCE_NONE := h
    rw [if_neg h]
    simp only
    split_ifs <;> simp [h1] <;> omega

theorem poll_loop_shares (test_nonce : work → Nat → Bool) (fpgaid : Nat)
    (poll : Nat → PollEvent) :
    ∀ (iter i : Nat) (p : PollState),
      ∃ k, check_works (poll_loop test_nonce fpgaid poll iter i p).2.wire =
          check_works p.wire + k ∧
        shares (poll_loop test_nonce fpgaid poll iter i p).2.state =
          shares p.state + nonce_replies (replies_from p.modminer.device_fd poll i k) := by
  intro iter
  induction iter with
  | zero =>
    intro i p
    exact ⟨0, rfl, by simp [poll_loop, replies_from_zero, nonce_replies]⟩
  | succ iter ih =>
    intro i p
    unfold poll_loop
    simp only [_modminer_get_nonce]
    cases hr : port_reply p.modminer.device_fd (poll i).reply with
    | none =>
      refine ⟨1, by simp [check_works_append, check_works], ?_⟩
      simp [replies_from_succ, hr, replies_from_zero, nonce_replies]
    | some nonce =>
      simp only
      obtain ⟨g1, g2, g3⟩ := process_nonce_works test_nonce
        { p with wire := p.wire ++ [Frame.CHECK_WORK fpgaid] } nonce
      have g4 := process_nonce_shares test_nonce
        { p with wire := p.wire ++ [Frame.CHECK_WORK fpgaid] } nonce
      have hone : check_works (process_nonce test_nonce
          { p with wire := p.wire ++ [Frame.CHECK_WORK fpgaid] } nonce).wire =
          check_works p.wire + 1 := by
        rw [g2]; simp [check_works_append, check_works]
      have hstop : shares (process_nonce test_nonce
          { p with wire := p.wire ++ [Frame.CHECK_WORK fpgaid] } nonce).state =
          shares p.state + nonce_replies (replies_from p.modminer.device_fd poll i 1) := by
        rw [g4, replies_from_succ, hr, replies_from_zero]; rfl
      split_ifs
      · exact ⟨1, hone, hstop⟩
      · exact ⟨1, hone, hstop⟩
      · obtain ⟨k, k1, k2⟩ := ih (i + 1) (process_nonce test_nonce
          { p with wire := p.wire ++ [Frame.CHECK_WORK fpgaid] } nonce)
        refine ⟨k + 1, by rw [k1, hone]; omega, ?_⟩
        rw [k2, g4, g3]
        have : replies_from p.modminer.device_fd poll i (k + 1) =
            [nonce] ++ replies_from p.modminer.device_fd poll (i + 1) k := by
          rw [replies_from_succ, hr]; rfl
        rw [this, nonce_replies_append]
        simp only [Nat.add_assoc]

theorem change_clock_shares (m : cgpu_info) (s : modminer_fpga_state) (fpgaid : Nat)
    (delta : Int) (sc : Nat → Option Nat) :
    shares (modminer_change_clock m s fpgaid delta sc).state = shares s ∧
    check_works (modminer_change_clock m s fpgaid delta sc).wire = 0 := by
  constructor
  · rcases change_clock_cases m s fpgaid delta sc with ⟨_, h⟩ | ⟨_, h⟩ <;> rw [h] <;> rfl
  · unfold modminer_change_clock
    simp only
    split
    · rfl
    · split <;> rfl

theorem reduce_clock_shares (m : cgpu_info) (s : modminer_fpga_state) (fpgaid : Nat)
    (sc : Nat → Option Nat) :
    shares (modminer_reduce_clock m s fpgaid sc).state = shares s ∧
    check_works (modminer_reduce_clock m s fpgaid sc).wire = 0 := by
  unfold modminer_reduce_clock
  split
  · exact ⟨rfl, rfl⟩
  · exact change_clock_shares m s fpgaid (-2) sc

theorem get_temperature_shares (h : Int) (m : cgpu_info) (s : modminer_fpga_state)
    (fpgaid : Nat) (e : TempEnv) :
    shares (modminer_get_temperature h m s fpgaid e).state = shares s ∧
    check_works (modminer_get_temperature h m s fpgaid e).wire = 0 := by
  unfold modminer_get_temperature
  split
  · exact ⟨rfl, rfl⟩
  · rename_i b hb
    simp only
    split_ifs
    · obtain ⟨h1, h2⟩ := reduce_clock_shares m
        { s with temp := to_uchar (char_value b), last_cutoff_reduced := e.now } fpgaid e.set_clock
      refine ⟨h1, ?_⟩
      have := check_works_append [Frame.TEMP1 fpgaid] (modminer_reduce_clock m
        { s with temp := to_uchar (char_value b), last_cutoff_reduced := e.now } fpgaid
          e.set_clock).wire
      rw [h2] at this
      simpa [check_works] using this
    all_goals exact ⟨rfl, rfl⟩

theorem process_results_shares (test_nonce : work → Nat → Bool) (h : Int) (m : cgpu_info)
    (s : modminer_fpga_state) (hw : Nat) (fpgaid : Nat) (env : ResultsEnv) :
    shares (modminer_process_results test_nonce h m s hw fpgaid env).state =
      shares s + nonce_replies (replies_from
        (modminer_get_temperature h m s fpgaid env.temp).modminer.device_fd env.poll 0
        (check_works (modminer_process_results test_nonce h m s hw fpgaid env).wire)) := by
  obtain ⟨t1, t2⟩ := get_temperature_shares h m s fpgaid env.temp
  obtain ⟨k, l1, l2⟩ := poll_loop_shares test_nonce fpgaid env.poll 200 0
    ⟨(modminer_get_temperature h m s fpgaid env.temp).modminer,
     (modminer_get_temperature h m s fpgaid env.temp).state, hw, WorkSel.running_work, 0, 0, [],
     (modminer_get_temperature h m s fpgaid env.temp).wire⟩
  simp only at l1 l2
  rw [t2, Nat.zero_add] at l1
  rw [t1] at l2
  unfold modminer_process_results
  simp only
  generalize poll_loop test_nonce fpgaid env.poll 200 0
    ⟨(modminer_get_temperature h m s fpgaid env.temp).modminer,
     (modminer_get_temperature h m s fpgaid env.temp).state, hw, WorkSel.running_work, 0, 0, [],
     (modminer_get_temperature h m s fpgaid env.temp).wire⟩ = L at l1 l2 ⊢
  obtain ⟨ok, p⟩ := L
  simp only at l1 l2
  cases ok
  · simp only [Bool.not_false, if_true]
    rw [l1]
    exact l2
  · simp only [Bool.not_true, Bool.false_eq_true, if_false]
    unfold dclk_updateFreq
    split
    · simp only [List.append_nil]
      rw [l1]
      exact l2
    · rename_i mult _
      unfold modminer_dclk_change_clock
      simp only
      obtain ⟨c1, c2⟩ := change_clock_shares p.modminer
        { p.state with hashes := (hashes_credit p.state.dclk.freqM
            ((env.tv_workend - p.state.tv_workstart) % 2 ^ 64).toNat p.state.hashes).2 }
        fpgaid (to_schar ((mult - (p.state.dclk.freqM : Int)) * 2)) env.set_clock
      rw [check_works_append, c2, l1, Nat.add_zero, c1]
      exact l2

theorem start_work_shares (m : cgpu_info) (s : modminer_fpga_state) (env : StartEnv) :
    shares (modminer_start_work m s env).state = shares s ∧
    check_works (modminer_start_work m s env).wire = 0 := by
  unfold modminer_start_work
  simp only
  split_ifs <;> exact ⟨rfl, rfl⟩

theorem prepare_shares (s : modminer_fpga_state) (w : work) :
    shares (modminer_prepare_next_work s w).2 = shares s := by
  unfold modminer_prepare_next_work
  simp only
  split_ifs <;> rfl

theorem scanhash_shares (test_nonce : work → Nat → Bool) (h : Int) (m : cgpu_info)
    (s : modminer_fpga_state) (hw : Nat) (fpgaid : Nat) (w : work) (env : ScanEnv) :
    shares (modminer_scanhash test_nonce h m s hw fpgaid w env).state =
      shares s + nonce_replies (scanhash_replies h m s fpgaid env
        (modminer_scanhash test_nonce h m s hw fpgaid w env)) := by
  unfold scanhash_replies
  cases hp : (modminer_prepare_next_work s w).1
  · have hs := prepare_false_state s w hp
    have hpr := process_results_shares test_nonce h m s hw fpgaid env.results
    unfold modminer_scanhash
    simp only [hp, hs, Bool.false_eq_true, if_false]
    split_ifs
    · exact hpr
    · exact hpr
    · simp [check_works, replies_from_zero, nonce_replies, shares]
  · have hps := prepare_shares s w
    unfold modminer_scanhash
    simp only [hp, if_true]
    obtain ⟨s1, s2⟩ := start_work_shares m
      { (modminer_prepare_next_work s w).2 with
        last_work := (modminer_prepare_next_work s w).2.running_work,
        running_work := w } env.start
    have s1b : shares (modminer_start_work m
      { (modminer_prepare_next_work s w).2 with
        last_work := (modminer_prepare_next_work s w).2.running_work,
        running_work := w } env.start).state = shares s := by
      rw [s1]; exact hps
    split_ifs
    · simp only [s2, replies_from_zero]
      rw [s1b]; rfl
    · simp only [s2, replies_from_zero]
      rw [s1b]; rfl

theorem scan_cycles_shares (test_nonce : work → Nat → Bool) (h : Int) (fpgaid : Nat) :
    ∀ (cycles : List (work × ScanEnv)) (m : cgpu_info) (s : modminer_fpga_state) (hw : Nat),
      shares (scan_cycles test_nonce h fpgaid m s hw cycles).state =
        shares s + nonce_replies (scan_cycles test_nonce h fpgaid m s hw cycles).replies := by
  intro cycles
  induction cycles with
  | nil => intro m s hw; simp [scan_cycles, nonce_replies]
  | cons c cs ih =>
    intro m s hw
    unfold scan_cycles
    simp only
    rw [ih, scanhash_shares, nonce_replies_append, Nat.add_assoc]

theorem init_clock_shares (m : cgpu_info) (s : modminer_fpga_state) (fpgaid : Nat)
    (env : InitEnv) (log : List Nat) (w : List Frame) (o : InitOut)
    (h : modminer_fpga_init_clock m s fpgaid env log w = some o) (hrv : o.rv = true) :
    shares o.state = shares s := by
  unfold modminer_fpga_init_clock at h
  simp only at h
  split at h
  · cases h
  · rename_i c hc
    by_cases h1 : (!c.rv) = true
    · simp only [h1, if_true] at h
      cases h; simp at hrv
    · simp only [h1, if_false] at h
      have hcrv : c.rv = true := by simpa using h1
      obtain ⟨f, _, _, hf3⟩ := calibration_loop_state fpgaid env _ 115 m _ w c rfl
        (by omega) hc hcrv
      have hcs : shares c.state = shares s := by rw [hf3]; rfl
      cases h
      by_cases h2 : MODMINER_DEF_CLOCK / 2 < c.state.dclk.freqM
      · simp only [h2, if_true]
        obtain ⟨d1, _⟩ := change_clock_shares c.modminer
          { c.state with
            freqMaxMaxM := c.state.dclk.freqM,
            dclk := { c.state.dclk with freqMaxM := c.state.dclk.freqM } }
          fpgaid (-((c.state.dclk.freqM : Int) * 2 - (MODMINER_DEF_CLOCK : Nat))) env.set_clock
        exact d1.trans hcs
      · simp only [h2, if_false]
        exact hcs

theorem init_shares (m : cgpu_info) (s : modminer_fpga_state) (fpgaid : Nat)
    (env : InitEnv) (o : InitOut)
    (ho : modminer_fpga_init m s fpgaid env = some o) (hrv : o.rv = true) :
    shares o.state = shares s := by
  unfold modminer_fpga_init at ho
  by_cases h1 : m.device_fd = Fd.minus_one
  · simp only [h1, if_true] at ho
    cases ho; simp at hrv
  · simp only [h1, if_false] at ho
    cases hu : port_reply m.device_fd env.usercode with
    | none => simp only [hu] at ho; cases ho; simp at hrv
    | some buf =>
      simp only [hu] at ho
      by_cases h2 : buf ≠ BISTREAM_USER_ID ∨ env.force_dev_init = true
      · simp only [h2, if_true] at ho
        cases hup : modminer_fpga_upload_bitstream m env.upload with
        | none => simp only [hup] at ho; cases ho
        | some u =>
          simp only [hup] at ho
          by_cases h3 : (!u.rv) = true
          · simp only [h3, if_true] at ho
            cases ho; simp at hrv
          · simp only [h3, if_false] at ho
            rw [init_clock_shares _ _ _ _ _ _ o ho hrv]
            split_ifs <;> rfl
      · simp only [h2, if_false] at ho
        exact init_clock_shares _ _ _ _ _ _ o ho hrv

/-- C11 (amended): after a successful `modminer_fpga_init` on counters that
start at 0, and any number of `modminer_scanhash` cycles,
`good_share_counter + bad_share_counter` equals the number of CHECK_WORK
replies received during the `modminer_scanhash` cycles that differ from
0xFFFFFFFF; the replies to the calibration probes of `modminer_fpga_init` are
not counted. -/
theorem nonce_accounting (test_nonce : work → Nat → Bool) (opt_hysteresis : Int)
    (modminer : cgpu_info) (state : modminer_fpga_state) (fpgaid : Nat) (ienv : InitEnv)
    (o : InitOut) (hw_errors : Nat) (cycles : List (work × ScanEnv))
    (hzero : state.good_share_counter = 0 ∧ state.bad_share_counter = 0)
    (hinit : modminer_fpga_init modminer state fpgaid ienv = some o) (hrv : o.rv = true) :
    (scan_cycles test_nonce opt_hysteresis fpgaid o.modminer o.state hw_errors
        cycles).state.good_share_counter +
      (scan_cycles test_nonce opt_hysteresis fpgaid o.modminer o.state hw_errors
        cycles).state.bad_share_counter =
      nonce_replies (scan_cycles test_nonce opt_hysteresis fpgaid o.modminer o.state hw_errors
        cycles).replies := by
  have h1 := scan_cycles_shares test_nonce opt_hysteresis fpgaid cycles o.modminer o.state
    hw_errors
  have h2 := init_shares modminer state fpgaid ienv o hinit hrv
  have h3 : shares state = 0 := by unfold shares; omega
  rw [h2, h3, Nat.zero_add] at h1
  exact h1

/-- C11, witness: an initialisation on the device that rejects 230 MHz, followed
by three cycles whose only CHECK_WORK reply is 0x0101. -/
theorem nonce_accounting_witness :
    ((modminer_fpga_prepare 0).good_share_counter = 0 ∧
      (modminer_fpga_prepare 0).bad_share_counter = 0) ∧
    modminer_fpga_init ⟨Fd.valid, 80, 0⟩ (modminer_fpga_prepare 0) 0
        (device_env device_228 programmed_env) =
      some ⟨true, ⟨Fd.valid, 80, 0⟩, state_100, [],
        [Frame.GET_USERCODE 0, Frame.SET_CLOCK 0 230, Frame.SET_CLOCK 0 228, Frame.CHECK_WORK 0,
          Frame.SET_CLOCK 0 200]⟩ ∧
    (scan_cycles test_nonce_tag 3 0 ⟨Fd.valid, 80, 0⟩ state_100 0
        three_cycles).state.good_share_counter +
      (scan_cycles test_nonce_tag 3 0 ⟨Fd.valid, 80, 0⟩ state_100 0
        three_cycles).state.bad_share_counter =
      nonce_replies (scan_cycles test_nonce_tag 3 0 ⟨Fd.valid, 80, 0⟩ state_100 0
        three_cycles).replies ∧
    (scan_cycles test_nonce_tag 3 0 ⟨Fd.valid, 80, 0⟩ state_100 0 three_cycles).replies =
      [0x0101] :=
  ⟨⟨rfl, rfl⟩, by decide,
    nonce_accounting test_nonce_tag 3 ⟨Fd.valid, 80, 0⟩ (modminer_fpga_prepare 0) 0
      (device_env device_228 programmed_env)
      ⟨true, ⟨Fd.valid, 80, 0⟩, state_100, [],
        [Frame.GET_USERCODE 0, Frame.SET_CLOCK 0 230, Frame.SET_CLOCK 0 228, Frame.CHECK_WORK 0,
          Frame.SET_CLOCK 0 200]⟩ 0 three_cycles ⟨rfl, rfl⟩ (by decide) rfl,
    by decide⟩

/-- C11, counterexample: the device answers `00 ff ff ff` to the calibration probe
at 230 MHz, so the trace holds two CHECK_WORK replies other than 0xFFFFFFFF
(that probe and the nonce 0x0101 of the third cycle), while
`good_share_counter + bad_share_counter` is 1; and when the probe at 230 MHz is
answered with the nonce 0x0101 the counters are both 0 after
`modminer_fpga_init`. -/
theorem nonce_accounting_calibration :
    (modminer_fpga_init ⟨Fd.valid, 80, 0⟩ (modminer_fpga_prepare 0) 0
        (device_env device_disabled_230 programmed_env)).map
      (fun o => (o.rv, init_replies (device_env device_disabled_230 programmed_env) o.wire,
        (scan_cycles test_nonce_tag 3 0 o.modminer o.state 0 three_cycles).replies,
        shares (scan_cycles test_nonce_tag 3 0 o.modminer o.state 0 three_cycles).state)) =
      some (true, [0xFFFFFF00, 0xFFFFFFFF], [0x0101], 1) ∧
    nonce_replies ([0xFFFFFF00, 0xFFFFFFFF] ++ [0x0101]) = 2 ∧
    (modminer_fpga_init ⟨Fd.valid, 80, 0⟩ (modminer_fpga_prepare 0) 0
        (device_env device_nonce_0101 programmed_env)).map
      (fun o => (o.rv, init_replies (device_env device_nonce_0101 programmed_env) o.wire,
        shares o.state)) = some (true, [0x0101], 0) := by
  decide

/-! ## Re-send after a failed send -/

/-- C14: the code after a failed send. From a hashing FPGA, work 7 is staged, its
SEND_WORK is written and the ack read fails, so `modminer_scanhash` returns -1
with the port closed; the next three calls offered work 7 reopen the port,
poll and credit 200000000 hashes to work 7 without any SEND_WORK. From an
idle FPGA with a failed SEND_WORK write, the next call only sets
`work_running`. -/
theorem failed_send_not_resent :
    ((modminer_prepare_next_work state_hashing (work_of 7)).1 = true ∧
     (failed_send state_hashing ChunkAck.read_failed).rv = -1 ∧
     (failed_send state_hashing ChunkAck.read_failed).modminer.device_fd = Fd.minus_one ∧
     send_works (failed_send state_hashing ChunkAck.read_failed).wire =
       [8 :: 0 :: List.replicate 44 7] ∧
     (failed_send state_hashing ChunkAck.read_failed).state.running_work = work_of 7) ∧
    ((scan_again (failed_send state_hashing ChunkAck.read_failed)).wire =
       [Frame.TEMP1 0, Frame.CHECK_WORK 0] ∧
     (scan_again (failed_send state_hashing ChunkAck.read_failed)).rv = 0 ∧
     (scan_again (failed_send state_hashing ChunkAck.read_failed)).reopen_called = true ∧
     (scan_again (failed_send state_hashing ChunkAck.read_failed)).modminer.device_fd =
       Fd.valid) ∧
    ((scan_again (scan_again (failed_send state_hashing ChunkAck.read_failed))).wire = [] ∧
     (scan_again (scan_again (scan_again
       (failed_send state_hashing ChunkAck.read_failed)))).wire =
       [Frame.TEMP1 0, Frame.CHECK_WORK 0] ∧
     (scan_again (scan_again (scan_again
       (failed_send state_hashing ChunkAck.read_failed)))).rv = 200000000 ∧
     (scan_again (scan_again (scan_again
       (failed_send state_hashing ChunkAck.read_failed)))).work.blk_nonce = 200000000) ∧
    ((failed_send state_100 ChunkAck.write_failed).rv = -1 ∧
     send_works (failed_send state_100 ChunkAck.write_failed).wire =
       [8 :: 0 :: List.replicate 44 7] ∧
     (scan_again (failed_send state_100 ChunkAck.write_failed)).wire = [] ∧
     (scan_again (failed_send state_100 ChunkAck.write_failed)).rv = 0 ∧
     (scan_again (failed_send state_100 ChunkAck.write_failed)).state.work_running = true ∧
     (scan_again (failed_send state_100 ChunkAck.write_failed)).state.running_work =
       work_of 7) := by
  decide

end ModMiner
